import Mathlib

/-!
# Verification of the TeamCity Kotlin-DSL converter

A shallow embedding of `src/converter.py` over `List Char`, together with
theorems settling the frozen claims about the parser: the balanced-region
extractor, the regex-based leaf field extractors, the block decoders, the
object registry and the project tree merge.

Python strings are modelled as `List Char`; each regular expression used by
the source is modelled by an explicit matching function with Python `re`
semantics (leftmost match for `search`, non-overlapping successive leftmost
matches for `findall`/`finditer`), specialised to the concrete patterns of
the source.
-/

set_option maxHeartbeats 1000000
set_option maxRecDepth 100000

abbrev LStr := List Char

/-- Convert a Lean string literal to the `List Char` model. -/
def lit (s : String) : LStr := s.toList

/-- Python `str.isspace` / regex `\s` for the ASCII range used by the inputs. -/
def isPySpace (c : Char) : Bool :=
  c == ' ' || c == '\t' || c == '\n' || c == '\r' || c == '\x0b' || c == '\x0c'

/-- Regex `\w` for ASCII: letters, digits and underscore. -/
def isWordChar (c : Char) : Bool := c.isAlphanum || c == '_'

/-- Python `str.strip`: drop leading and trailing whitespace. -/
def pyStrip (s : LStr) : LStr :=
  ((s.dropWhile isPySpace).reverse.dropWhile isPySpace).reverse

/-- If `kw` is a literal prefix of `s`, return the remainder. -/
def takeKw : LStr → LStr → Option LStr
  | [], s => some s
  | _, [] => none
  | k :: ks, c :: cs => if c = k then takeKw ks cs else none

/-- Matcher for `kw\s*\{` at the head of `s`; returns the consumed length
(so the consumed region ends with the opening brace). -/
def matchKwOpen (kw : LStr) (s : LStr) : Option Nat :=
  match takeKw kw s with
  | none => none
  | some r1 =>
    match r1.dropWhile isPySpace with
    | '\x7b' :: r3 => some (s.length - r3.length)
    | _ => none

/-- Matcher for `kw\s*=\s*"([^"]+)"` at the head of `s`; returns consumed
length and the captured group. -/
def matchKwEqQuoted (kw : LStr) (s : LStr) : Option (Nat × LStr) :=
  match takeKw kw s with
  | none => none
  | some r1 =>
    match r1.dropWhile isPySpace with
    | '=' :: r2 =>
      match r2.dropWhile isPySpace with
      | '"' :: r3 =>
        let cap := r3.takeWhile (fun c => c ≠ '"')
        if cap = [] then none
        else
          match r3.drop cap.length with
          | '"' :: r4 => some (s.length - r4.length, cap)
          | _ => none
      | _ => none
    | _ => none

/-- Matcher for `kw\s*=\s*(true|false)` at the head of `s`. -/
def matchKwEqBool (kw : LStr) (s : LStr) : Option (Nat × Bool) :=
  match takeKw kw s with
  | none => none
  | some r1 =>
    match r1.dropWhile isPySpace with
    | '=' :: r2 =>
      let r3 := r2.dropWhile isPySpace
      match takeKw (lit "true") r3 with
      | some r4 => some (s.length - r4.length, true)
      | none =>
        match takeKw (lit "false") r3 with
        | some r4 => some (s.length - r4.length, false)
        | none => none
    | _ => none

/-- Index of the first position of `s` at which `"""` begins (fuel-driven
scan; call with fuel `s.length + 1`). -/
def findTripleQAux : Nat → LStr → Option Nat
  | 0, _ => none
  | fuel + 1, s =>
    if s.take 3 = ['"', '"', '"'] then some 0
    else
      match s with
      | [] => none
      | _ :: rest => (findTripleQAux fuel rest).map (· + 1)

def findTripleQ (s : LStr) : Option Nat := findTripleQAux (s.length + 1) s

/-- Matcher for `kw\s*=\s*"""(.*?)"""` (DOTALL, non-greedy) at the head of
`s`: the capture runs to the first following `"""`. -/
def matchKwEqTripleNG (kw : LStr) (s : LStr) : Option (Nat × LStr) :=
  match takeKw kw s with
  | none => none
  | some r1 =>
    match r1.dropWhile isPySpace with
    | '=' :: r2 =>
      match r2.dropWhile isPySpace with
      | '"' :: '"' :: '"' :: r3 =>
        match findTripleQ r3 with
        | none => none
        | some i => some (s.length - (r3.length - (i + 3)), r3.take i)
      | _ => none
    | _ => none

/-- Matcher for `kw\s*=\s*"""([^"]*)"""` (star) or `"""([^"]+)"""` (plus)
at the head of `s`: the capture is a maximal run of non-quote characters. -/
def matchKwEqTripleCC (plus : Bool) (kw : LStr) (s : LStr) : Option (Nat × LStr) :=
  match takeKw kw s with
  | none => none
  | some r1 =>
    match r1.dropWhile isPySpace with
    | '=' :: r2 =>
      match r2.dropWhile isPySpace with
      | '"' :: '"' :: '"' :: r3 =>
        let cap := r3.takeWhile (fun c => c ≠ '"')
        if plus ∧ cap = [] then none
        else
          match r3.drop cap.length with
          | '"' :: '"' :: '"' :: r4 => some (s.length - r4.length, cap)
          | _ => none
      | _ => none
    | _ => none

/-- Matcher for `kw\s*\{([^}]*)\}` (star) or `kw\s*\{([^}]+)\}` (plus)
at the head of `s`. -/
def matchKwBlockCC (plus : Bool) (kw : LStr) (s : LStr) : Option (Nat × LStr) :=
  match takeKw kw s with
  | none => none
  | some r1 =>
    match r1.dropWhile isPySpace with
    | '\x7b' :: r2 =>
      let cap := r2.takeWhile (fun c => c ≠ '\x7d')
      if plus ∧ cap = [] then none
      else
        match r2.drop cap.length with
        | '\x7d' :: r3 => some (s.length - r3.length, cap)
        | _ => none
    | _ => none

/-- Matcher for `fname\(([^)]+)\)` at the head of `s`. -/
def matchCallArgs (fname : LStr) (s : LStr) : Option (Nat × LStr) :=
  match takeKw fname s with
  | none => none
  | some r1 =>
    match r1 with
    | '(' :: r2 =>
      let cap := r2.takeWhile (fun c => c ≠ ')')
      if cap = [] then none
      else
        match r2.drop cap.length with
        | ')' :: r3 => some (s.length - r3.length, cap)
        | _ => none
    | _ => none

/-- Matcher for `fname\("([^"]+)"\s*,\s*"([^"]+)"` — with a final `\)` when
`closeParen` is true — at the head of `s`. -/
def matchCallTwoStr (closeParen : Bool) (fname : LStr) (s : LStr) :
    Option (Nat × (LStr × LStr)) :=
  match takeKw fname s with
  | none => none
  | some r1 =>
    match r1 with
    | '(' :: '"' :: r2 =>
      let cap1 := r2.takeWhile (fun c => c ≠ '"')
      if cap1 = [] then none
      else
        match r2.drop cap1.length with
        | '"' :: r3 =>
          match r3.dropWhile isPySpace with
          | ',' :: r4 =>
            match r4.dropWhile isPySpace with
            | '"' :: r5 =>
              let cap2 := r5.takeWhile (fun c => c ≠ '"')
              if cap2 = [] then none
              else
                match r5.drop cap2.length with
                | '"' :: r6 =>
                  if closeParen then
                    match r6 with
                    | ')' :: r7 => some (s.length - r7.length, (cap1, cap2))
                    | _ => none
                  else some (s.length - r6.length, (cap1, cap2))
                | _ => none
            | _ => none
          | _ => none
        | _ => none
    | _ => none

/-- Matcher for `object\s+(\w+)\s*:\s*(\w+)\(\{` at the head of `s`;
returns consumed length and the two captures (name, declaration kind). -/
def matchObjDecl (s : LStr) : Option (Nat × (LStr × LStr)) :=
  match takeKw (lit "object") s with
  | none => none
  | some r1 =>
    match r1 with
    | c :: _ =>
      if isPySpace c then
        let r2 := r1.dropWhile isPySpace
        let cap1 := r2.takeWhile isWordChar
        if cap1 = [] then none
        else
          match (r2.drop cap1.length).dropWhile isPySpace with
          | ':' :: r3 =>
            let r4 := r3.dropWhile isPySpace
            let cap2 := r4.takeWhile isWordChar
            if cap2 = [] then none
            else
              match r4.drop cap2.length with
              | '(' :: '\x7b' :: r5 => some (s.length - r5.length, (cap1, cap2))
              | _ => none
          | _ => none
      else none
    | [] => none

/-- Matcher for `executionMode\s*=\s*BuildStep\.ExecutionMode\.(\w+)`. -/
def matchExecMode (s : LStr) : Option (Nat × LStr) :=
  match takeKw (lit "executionMode") s with
  | none => none
  | some r1 =>
    match r1.dropWhile isPySpace with
    | '=' :: r2 =>
      match takeKw (lit "BuildStep.ExecutionMode.") (r2.dropWhile isPySpace) with
      | none => none
      | some r3 =>
        let cap := r3.takeWhile isWordChar
        if cap = [] then none
        else some (s.length - (r3.length - cap.length), cap)
    | _ => none

/-- Matcher for `command\s*=\s*script\s*\{([^}]+)\}` (python steps). -/
def matchCmdScript (s : LStr) : Option (Nat × LStr) :=
  match takeKw (lit "command") s with
  | none => none
  | some r1 =>
    match r1.dropWhile isPySpace with
    | '=' :: r2 =>
      match takeKw (lit "script") (r2.dropWhile isPySpace) with
      | none => none
      | some r3 =>
        match r3.dropWhile isPySpace with
        | '\x7b' :: r4 =>
          let cap := r4.takeWhile (fun c => c ≠ '\x7d')
          if cap = [] then none
          else
            match r4.drop cap.length with
            | '\x7d' :: r5 => some (s.length - r5.length, cap)
            | _ => none
        | _ => none
    | _ => none

/-- Matcher for `scriptMode\s*=\s*script\s*\{` (powershell steps); returns
the consumed length, ending at the opening brace. -/
def matchScriptModeOpen (s : LStr) : Option Nat :=
  match takeKw (lit "scriptMode") s with
  | none => none
  | some r1 =>
    match r1.dropWhile isPySpace with
    | '=' :: r2 =>
      match takeKw (lit "script") (r2.dropWhile isPySpace) with
      | none => none
      | some r3 =>
        match r3.dropWhile isPySpace with
        | '\x7b' :: r4 => some (s.length - r4.length)
        | _ => none
    | _ => none

/-- `re.search`: try the matcher at each position from the left, returning
the first success (fuel-driven; fuel `s.length + 1` visits every suffix). -/
def searchCapAux (m : LStr → Option α) : Nat → LStr → Option α
  | 0, _ => none
  | fuel + 1, s =>
    match m s with
    | some a => some a
    | none =>
      match s with
      | [] => none
      | _ :: rest => searchCapAux m fuel rest

def searchCap (m : LStr → Option α) (s : LStr) : Option α :=
  searchCapAux m (s.length + 1) s

/-- `re.search` also reporting the match position. -/
def searchPosAux (m : LStr → Option α) : Nat → LStr → Nat → Option (Nat × α)
  | 0, _, _ => none
  | fuel + 1, s, pos =>
    match m s with
    | some a => some (pos, a)
    | none =>
      match s with
      | [] => none
      | _ :: rest => searchPosAux m fuel rest (pos + 1)

def searchPos (m : LStr → Option α) (s : LStr) : Option (Nat × α) :=
  searchPosAux m (s.length + 1) s 0

/-- `re.findall`: captures of successive non-overlapping leftmost matches. -/
def findAllCapsAux (m : LStr → Option (Nat × α)) : Nat → LStr → List α
  | 0, _ => []
  | fuel + 1, s =>
    match m s with
    | some (len, a) => a :: findAllCapsAux m fuel (s.drop (max len 1))
    | none =>
      match s with
      | [] => []
      | _ :: rest => findAllCapsAux m fuel rest

def findAllCaps (m : LStr → Option (Nat × α)) (s : LStr) : List α :=
  findAllCapsAux m (s.length + 1) s

/-- `re.finditer` keeping only `match.end()`: the absolute end positions of
successive non-overlapping leftmost matches. -/
def findAllEndsAux (m : LStr → Option Nat) : Nat → LStr → Nat → List Nat
  | 0, _, _ => []
  | fuel + 1, s, pos =>
    match m s with
    | some len =>
      (pos + len) :: findAllEndsAux m fuel (s.drop (max len 1)) (pos + max len 1)
    | none =>
      match s with
      | [] => []
      | _ :: rest => findAllEndsAux m fuel rest (pos + 1)

def findAllEnds (m : LStr → Option Nat) (s : LStr) : List Nat :=
  findAllEndsAux m (s.length + 1) s 0

/-- `re.finditer` keeping `match.end()` and the captures. -/
def findAllPosAux (m : LStr → Option (Nat × α)) : Nat → LStr → Nat → List (Nat × α)
  | 0, _, _ => []
  | fuel + 1, s, pos =>
    match m s with
    | some (len, a) =>
      (pos + len, a) :: findAllPosAux m fuel (s.drop (max len 1)) (pos + max len 1)
    | none =>
      match s with
      | [] => []
      | _ :: rest => findAllPosAux m fuel rest (pos + 1)

def findAllPos (m : LStr → Option (Nat × α)) (s : LStr) : List (Nat × α) :=
  findAllPosAux m (s.length + 1) s 0

/-- `extract_balanced`, inner scan: walk the text keeping the nesting level
exactly as the Python loop does, returning the relative index of the
closing brace at which the level returns to zero. -/
def extractBalancedAux : LStr → Int → Option Nat
  | [], _ => none
  | c :: rest, level =>
    if c = '\x7b' then (extractBalancedAux rest (level + 1)).map (· + 1)
    else if c = '\x7d' then
      if level - 1 = 0 then some 0
      else (extractBalancedAux rest (level - 1)).map (· + 1)
    else (extractBalancedAux rest level).map (· + 1)

/-- `extract_balanced(text, start)`: the substring from `start` through the
brace closing the region, or the empty string when the region never
closes. -/
def extract_balanced (text : LStr) (start : Nat) : LStr :=
  let s := text.drop start
  match extractBalancedAux s 0 with
  | some i => s.take (i + 1)
  | none => []

example : extract_balanced (lit "ab\x7bc\x7bd\x7de\x7df") 2 = lit "\x7bc\x7bd\x7de\x7d" := by rfl
example : extract_balanced (lit "ab\x7bc\x7bd\x7de") 2 = [] := by rfl
example : searchCap (matchKwEqQuoted (lit "name")) (lit " name = \"Run\" x") = some (12, lit "Run") := by rfl
example : matchKwOpen (lit "steps") (lit "steps  \x7bx") = some 8 := by rfl

/-! ## Data model

Each Python dict produced by the converter is modelled as a structure whose
optional keys are `Option` fields (`none` = key absent from the dict). -/

structure Condition where
  type : LStr
  property : LStr
  value : LStr
deriving DecidableEq

structure Param where
  type : LStr
  name : LStr
  value : LStr
deriving DecidableEq

structure Trigger where
  type : LStr
  enabled : Option LStr
deriving DecidableEq

structure Feature where
  type : LStr
deriving DecidableEq

structure VcsSettings where
  root : Option LStr
deriving DecidableEq

structure VcsRoot where
  name : Option LStr
  url : Option LStr
  branch : Option LStr
deriving DecidableEq

structure Step where
  type : Option LStr
  name : Option LStr
  id : Option LStr
  enabled : Option Bool
  workingDir : Option LStr
  scriptContent : Option LStr
  content : Option LStr
  conditions : Option (List Condition)
  executionMode : Option LStr
  params : Option (List Param)
deriving DecidableEq

structure BuildType where
  name : Option LStr
  steps : Option (List Step)
  triggers : Option (List Trigger)
  features : Option (List Feature)
  params : Option (List Param)
  vcs : Option VcsSettings
  artifactRules : Option LStr
deriving DecidableEq

/-- A project record as decoded by `parse_project` / the root-project logic,
with reference lists still holding bare identifiers. -/
structure ProjParse where
  name : Option LStr
  description : Option LStr
  buildTypes : Option (List LStr)
  subProjects : Option (List LStr)
  vcsRoots : Option (List LStr)
  features : Option (List Feature)
deriving DecidableEq

/-- A value of the object registry (`objects` dict). -/
inductive RegVal where
  | bt (b : BuildType)
  | proj (p : ProjParse)
  | vcsroot (v : VcsRoot)
deriving DecidableEq

mutual
inductive OutVal where
  | bt (b : BuildType)
  | vcsroot (v : VcsRoot)
  | proj (p : OutProj)
inductive OutProj where
  | mk (name : Option LStr) (description : Option LStr)
       (buildTypes : Option (List OutRef))
       (subProjects : Option (List OutRef))
       (vcsRoots : Option (List OutRef))
       (features : Option (List Feature))
inductive OutRef where
  | mk (id : LStr) (val : Option OutVal)
end

def OutProj.buildTypes : OutProj → Option (List OutRef)
  | .mk _ _ b _ _ _ => b

def OutProj.subProjects : OutProj → Option (List OutRef)
  | .mk _ _ _ s _ _ => s

def OutProj.vcsRoots : OutProj → Option (List OutRef)
  | .mk _ _ _ _ v _ => v

def OutRef.id : OutRef → LStr
  | .mk i _ => i

def OutRef.val : OutRef → Option OutVal
  | .mk _ v => v

structure Document where
  version : LStr
  project : OutProj

/-! ## Leaf search helpers (first match wins, `re.search` semantics) -/

def searchQ (kw : LStr) (s : LStr) : Option LStr :=
  (searchCap (matchKwEqQuoted kw) s).map (·.2)

def searchBool (kw : LStr) (s : LStr) : Option Bool :=
  (searchCap (matchKwEqBool kw) s).map (·.2)

def searchBlock (plus : Bool) (kw : LStr) (s : LStr) : Option LStr :=
  (searchCap (matchKwBlockCC plus kw) s).map (·.2)

def searchTripleNG (kw : LStr) (s : LStr) : Option LStr :=
  (searchCap (matchKwEqTripleNG kw) s).map (·.2)

def searchTripleCC (plus : Bool) (kw : LStr) (s : LStr) : Option LStr :=
  (searchCap (matchKwEqTripleCC plus kw) s).map (·.2)

/-- Python `block[1:-1]`: strip the outer braces of a balanced block. -/
def innerOf (block : LStr) : LStr := (block.drop 1).dropLast

/-! ## Block decoders -/

def parse_params (content : LStr) : List Param :=
  ((findAllCaps (matchCallTwoStr false (lit "param")) content).map
    (fun kv => Param.mk (lit "param") kv.1 kv.2)) ++
  ((findAllCaps (matchCallTwoStr false (lit "select")) content).map
    (fun kv => Param.mk (lit "select") kv.1 kv.2)) ++
  ((findAllCaps (matchCallTwoStr false (lit "checkbox")) content).map
    (fun kv => Param.mk (lit "checkbox") kv.1 kv.2)) ++
  ((findAllCaps (matchCallTwoStr false (lit "text")) content).map
    (fun kv => Param.mk (lit "text") kv.1 kv.2))

def parse_conditions_from (kinds : List LStr) (cc : LStr) : List Condition :=
  kinds.flatMap (fun k =>
    (findAllCaps (matchCallTwoStr true k) cc).map
      (fun pv => Condition.mk k pv.1 pv.2))

def parse_script_step (content : LStr) : Step :=
  { type := some (lit "script"),
    name := searchQ (lit "name") content,
    id := searchQ (lit "id") content,
    enabled := searchBool (lit "enabled") content,
    workingDir := searchQ (lit "workingDir") content,
    scriptContent := (searchTripleNG (lit "scriptContent") content).map pyStrip,
    content := none,
    conditions :=
      match searchBlock false (lit "conditions") content with
      | none => none
      | some cc =>
        let cs := parse_conditions_from [lit "equals", lit "contains"] cc
        if cs = [] then none else some cs,
    executionMode := none,
    params := none }

def parse_python_step (content : LStr) : Step :=
  { type := some (lit "python"),
    name := searchQ (lit "name") content,
    id := searchQ (lit "id") content,
    enabled := none,
    workingDir := none,
    scriptContent :=
      match searchCap matchCmdScript content with
      | none => none
      | some cmd => (searchTripleCC false (lit "content") cmd.2).map pyStrip,
    content := none,
    conditions := none,
    executionMode := none,
    params := none }

def parse_powershell_step (content : LStr) : Step :=
  { type := some (lit "powershell"),
    name := searchQ (lit "name") content,
    id := searchQ (lit "id") content,
    enabled := none,
    workingDir := none,
    scriptContent :=
      match searchPos matchScriptModeOpen content with
      | none => none
      | some pl =>
        let block := extract_balanced content (pl.1 + pl.2 - 1)
        if block = [] then none
        else (searchTripleNG (lit "content") (innerOf block)).map pyStrip,
    content := none,
    conditions :=
      match searchBlock false (lit "conditions") content with
      | none => none
      | some cc =>
        let cs := parse_conditions_from [lit "contains"] cc
        if cs = [] then none else some cs,
    executionMode := none,
    params := none }

def parse_general_step (content : LStr) : Step :=
  { type := searchQ (lit "type") content,
    name := searchQ (lit "name") content,
    id := searchQ (lit "id") content,
    enabled := searchBool (lit "enabled") content,
    workingDir := none,
    scriptContent := none,
    content := none,
    conditions := none,
    executionMode := (searchCap matchExecMode content).map (·.2),
    params := (searchBlock false (lit "params") content).map parse_params }

def parse_kotlin_step (content : LStr) : Step :=
  { type := some (lit "kotlinScript"),
    name := searchQ (lit "name") content,
    id := searchQ (lit "id") content,
    enabled := searchBool (lit "enabled") content,
    workingDir := none,
    scriptContent := none,
    content := (searchTripleCC false (lit "content") content).map pyStrip,
    conditions := none,
    executionMode := none,
    params := none }

/-- One `finditer` pass of `parse_steps`: decode every balanced block whose
opener matches `kw\s*{`, skipping unterminated blocks. -/
def stepsOfKind (kw : LStr) (p : LStr → Step) (content : LStr) : List Step :=
  (findAllEnds (matchKwOpen kw) content).filterMap (fun e =>
    let block := extract_balanced content (e - 1)
    if block = [] then none else some (p (innerOf block)))

def parse_steps (content : LStr) : List Step :=
  stepsOfKind (lit "script") parse_script_step content ++
  stepsOfKind (lit "python") parse_python_step content ++
  stepsOfKind (lit "kotlinScript") parse_kotlin_step content ++
  stepsOfKind (lit "powerShell") parse_powershell_step content ++
  stepsOfKind (lit "step") parse_general_step content

def parse_triggers (content : LStr) : List Trigger :=
  (findAllCaps (matchKwBlockCC false (lit "vcs")) content).map (fun cc =>
    { type := lit "vcs",
      enabled := (searchBool (lit "enabled") cc).map
        (fun b => if b then lit "true" else lit "false") })

def parse_features (content : LStr) : List Feature :=
  (findAllCaps (matchKwBlockCC false (lit "perfmon")) content).map
    (fun _ => Feature.mk (lit "perfmon"))

def parse_vcs (content : LStr) : VcsSettings :=
  { root := (searchCap (matchCallArgs (lit "root")) content).map (fun p => pyStrip p.2) }

def parse_build_type (content : LStr) : BuildType :=
  { name := searchQ (lit "name") content,
    steps :=
      match searchPos (matchKwOpen (lit "steps")) content with
      | none => none
      | some pl =>
        let block := extract_balanced content (pl.1 + pl.2 - 1)
        if block = [] then none else some (parse_steps (innerOf block)),
    triggers := (searchBlock true (lit "triggers") content).map parse_triggers,
    features := (searchBlock true (lit "features") content).map parse_features,
    params := (searchBlock true (lit "params") content).map parse_params,
    vcs := (searchBlock true (lit "vcs") content).map parse_vcs,
    artifactRules := (searchTripleCC true (lit "artifactRules") content).map pyStrip }

def refIds (fname : LStr) (content : LStr) : Option (List LStr) :=
  let l := findAllCaps (matchCallArgs fname) content
  if l = [] then none else some (l.map pyStrip)

def parse_project (content : LStr) : ProjParse :=
  { name := searchQ (lit "name") content,
    description := none,
    buildTypes := refIds (lit "buildType") content,
    subProjects := refIds (lit "subProject") content,
    vcsRoots := refIds (lit "vcsRoot") content,
    features := none }

def parse_vcs_root (content : LStr) : VcsRoot :=
  { name := searchQ (lit "name") content,
    url := searchQ (lit "url") content,
    branch := searchQ (lit "branch") content }

/-! ## Object registry and tree assembly -/

/-- The `objects` dict: one `finditer` pass over named object declarations,
body extracted with `extract_balanced`, decoder dispatched on the
declaration kind; malformed (unterminated) declarations are skipped. -/
def buildRegistry (content : LStr) : List (LStr × RegVal) :=
  (findAllPos matchObjDecl content).filterMap (fun pe =>
    let block := extract_balanced content (pe.1 - 1)
    if block = [] then none
    else
      let oc := innerOf block
      if pe.2.2 = lit "BuildType" then some (pe.2.1, RegVal.bt (parse_build_type oc))
      else if pe.2.2 = lit "Project" then some (pe.2.1, RegVal.proj (parse_project oc))
      else if pe.2.2 = lit "GitVcsRoot" then some (pe.2.1, RegVal.vcsroot (parse_vcs_root oc))
      else if pe.2.2 = lit "Template" then some (pe.2.1, RegVal.bt (parse_build_type oc))
      else none)

/-- Python dict lookup with last-assignment-wins on duplicate names. -/
def regLookup (l : List (LStr × RegVal)) (k : LStr) : Option RegVal :=
  l.foldl (fun acc p => if p.1 = k then some p.2 else acc) none

/-- A registry value merged into a ref without recursive expansion. -/
def injectProj (p : ProjParse) : OutProj :=
  OutProj.mk p.name p.description
    (p.buildTypes.map (fun l => l.map (fun i => OutRef.mk i none)))
    (p.subProjects.map (fun l => l.map (fun i => OutRef.mk i none)))
    (p.vcsRoots.map (fun l => l.map (fun i => OutRef.mk i none)))
    p.features

def injectVal : RegVal → OutVal
  | .bt b => OutVal.bt b
  | .proj p => OutVal.proj (injectProj p)
  | .vcsroot v => OutVal.vcsroot v

/-- Merge for a `buildType`/`vcsRoot` ref: `map_project` copies the
registered record into the ref when the id is registered and never
recurses into these lists. -/
def mergeFlatRef (objects : List (LStr × RegVal)) (i : LStr) : OutRef :=
  match regLookup objects i with
  | none => OutRef.mk i none
  | some v => OutRef.mk i (some (injectVal v))

/-- Sequence a fallible merge over a ref list: a failing element aborts
the whole list, mirroring a Python exception propagating out of the
loop. -/
def listTraverse {α β : Type} (f : α → Option β) : List α → Option (List β)
  | [] => some []
  | a :: rest =>
    match f a with
    | none => none
    | some b =>
      match listTraverse f rest with
      | none => none
      | some bs => some (b :: bs)

/-- `map_project`: walk the ref lists, merging registered records in, and
recurse into every sub-project ref that merged a `Project` record.  The
Python recursion has no cycle guard: on a sub-project chain that revisits
a registry entry it recurses without bound and the interpreter aborts the
program with RecursionError.  Any terminating run descends through
pairwise-distinct registry `Project` entries, so its depth never exceeds
the registry size; with the fuel of registry size + 1 supplied at the
call site, fuel exhaustion — modelled as `none` — therefore happens on
exactly the inputs where the Python recursion never returns. -/
def mapProject (objects : List (LStr × RegVal)) : Nat → ProjParse → Option OutProj
  | 0, _ => none
  | fuel + 1, p =>
    match (match p.subProjects with
           | none => some none
           | some l =>
             (listTraverse (fun i =>
               match regLookup objects i with
               | none => some (OutRef.mk i none)
               | some (RegVal.proj q) =>
                 (mapProject objects fuel q).map
                   (fun op => OutRef.mk i (some (OutVal.proj op)))
               | some v => some (OutRef.mk i (some (injectVal v)))) l).map some) with
    | none => none
    | some subs =>
      some (OutProj.mk p.name p.description
        (p.buildTypes.map (fun l => l.map (mergeFlatRef objects)))
        subs
        (p.vcsRoots.map (fun l => l.map (mergeFlatRef objects)))
        p.features)

/-- Merge for a `subProject` ref at a given fuel, as used by
`mapProject (fuel+1)`: `none` when the recursive expansion of a merged
`Project` record exhausts the fuel. -/
def mergeSubRef (objects : List (LStr × RegVal)) (fuel : Nat) (i : LStr) : Option OutRef :=
  match regLookup objects i with
  | none => some (OutRef.mk i none)
  | some (RegVal.proj q) =>
    (mapProject objects fuel q).map (fun op => OutRef.mk i (some (OutVal.proj op)))
  | some v => some (OutRef.mk i (some (injectVal v)))

/-- One-step unfolding of `mapProject` at positive fuel, phrased with
`mergeSubRef`. -/
theorem mapProject_succ (objects : List (LStr × RegVal)) (fuel : Nat) (p : ProjParse) :
    mapProject objects (fuel + 1) p =
      match (match p.subProjects with
             | none => some none
             | some l => (listTraverse (mergeSubRef objects fuel) l).map some) with
      | none => none
      | some subs =>
        some (OutProj.mk p.name p.description
          (p.buildTypes.map (fun l => l.map (mergeFlatRef objects)))
          subs
          (p.vcsRoots.map (fun l => l.map (mergeFlatRef objects)))
          p.features) := rfl

/-! ## Top-level parser -/

/-- How `parse_kotlin_dsl` can leave the program: an explicit `None`, a
document, or death by the uncaught RecursionError the unguarded
`map_project` recursion raises on cyclic sub-project references. -/
inductive ParseOutcome where
  | noResult : ParseOutcome
  | crash : ParseOutcome
  | doc : Document → ParseOutcome

/-- The root project skeleton read off the project block interior:
description, the bare ref-id lists, and the sole modelled feature. -/
def parseRootProj (pc : LStr) : ProjParse :=
  { name := none,
    description := searchQ (lit "description") pc,
    buildTypes := refIds (lit "buildType") pc,
    subProjects := refIds (lit "subProject") pc,
    vcsRoots := refIds (lit "vcsRoot") pc,
    features :=
      match searchBlock true (lit "features") pc with
      | none => none
      | some fc =>
        match searchBlock true (lit "githubConnection") fc with
        | none => none
        | some _ => some [Feature.mk (lit "githubConnection")] }

/-- `parse_kotlin_dsl` on the file content: `noResult` (None) exactly when
the root `project {` block is missing or its balanced region is
unterminated; otherwise the merge runs, yielding a document when its
recursion terminates and crashing with RecursionError when a cyclic
sub-project chain makes it recurse without bound. -/
def parse_kotlin_dsl (content : LStr) : ParseOutcome :=
  let version := (searchQ (lit "version") content).getD (lit "2.1")
  match searchPos (matchKwOpen (lit "project")) content with
  | none => ParseOutcome.noResult
  | some pl =>
    match extract_balanced content (pl.1 + pl.2 - 1) with
    | [] => ParseOutcome.noResult
    | project_block =>
      let objects := buildRegistry content
      match mapProject objects (objects.length + 1) (parseRootProj (innerOf project_block)) with
      | none => ParseOutcome.crash
      | some op => ParseOutcome.doc { version := version, project := op }

/-- Let-free unfolding of `parse_kotlin_dsl`. -/
theorem parse_kotlin_dsl_eq (content : LStr) :
    parse_kotlin_dsl content =
      match searchPos (matchKwOpen (lit "project")) content with
      | none => ParseOutcome.noResult
      | some pl =>
        match extract_balanced content (pl.1 + pl.2 - 1) with
        | [] => ParseOutcome.noResult
        | project_block =>
          match mapProject (buildRegistry content) ((buildRegistry content).length + 1)
              (parseRootProj (innerOf project_block)) with
          | none => ParseOutcome.crash
          | some op =>
            ParseOutcome.doc
              (Document.mk ((searchQ (lit "version") content).getD (lit "2.1")) op) := rfl

/-- A failing element makes the whole traverse fail. -/
theorem listTraverse_mem_none {α β : Type} (f : α → Option β) (l : List α) (a : α)
    (ha : a ∈ l) (hf : f a = none) : listTraverse f l = none := by
  induction l with
  | nil => cases ha
  | cons x rest ih =>
    rcases List.mem_cons.mp ha with rfl | hmem
    · unfold listTraverse
      rw [hf]
    · unfold listTraverse
      cases hfx : f x with
      | none => rfl
      | some b => rw [ih hmem]

/-- A successful traverse acts elementwise at every index. -/
theorem listTraverse_getElem {α β : Type} (f : α → Option β) :
    ∀ (l : List α) (ol : List β), listTraverse f l = some ol →
      ∀ (k : Nat) (a : α), l[k]? = some a → ∃ b, f a = some b ∧ ol[k]? = some b := by
  intro l
  induction l with
  | nil =>
    intro ol _ k a hk
    simp at hk
  | cons x rest ih =>
    intro ol hol k a hk
    unfold listTraverse at hol
    cases hfx : f x with
    | none =>
      rw [hfx] at hol
      exact absurd hol (by simp)
    | some b =>
      rw [hfx] at hol
      cases hrest : listTraverse f rest with
      | none =>
        rw [hrest] at hol
        exact absurd hol (by simp)
      | some bs =>
        rw [hrest] at hol
        have hol2 : some (b :: bs) = some ol := hol
        obtain rfl : b :: bs = ol := Option.some.inj hol2
        cases k with
        | zero =>
          obtain rfl : x = a := by simpa using hk
          exact ⟨b, hfx, by simp⟩
        | succ k2 =>
          have hk2 : rest[k2]? = some a := by simpa using hk
          obtain ⟨b2, hb2, hbk⟩ := ih bs hrest k2 a hk2
          exact ⟨b2, hb2, by simpa using hbk⟩

/-- A sub-project chain that revisits its own registry entry starves the
merge of any amount of fuel: the model of the unbounded Python
recursion. -/
theorem mapProject_cycle (objects : List (LStr × RegVal)) (i : LStr) (q : ProjParse)
    (hlook : regLookup objects i = some (RegVal.proj q))
    (hself : ∃ l, q.subProjects = some l ∧ i ∈ l) :
    ∀ fuel, mapProject objects fuel q = none := by
  intro fuel
  induction fuel with
  | zero => rfl
  | succ n ih =>
    obtain ⟨l, hl, hmem⟩ := hself
    have hsub : mergeSubRef objects n i = none := by
      have h1 : mergeSubRef objects n i =
          (mapProject objects n q).map (fun op => OutRef.mk i (some (OutVal.proj op))) := by
        unfold mergeSubRef
        rw [hlook]
      rw [h1, ih]
      rfl
    have hnone : listTraverse (mergeSubRef objects n) l = none :=
      listTraverse_mem_none (mergeSubRef objects n) l i hmem hsub
    rw [mapProject_succ, hl]
    split
    · rfl
    · rename_i subs hsubs
      have h2 : (listTraverse (mergeSubRef objects n) l).map some = some subs := hsubs
      rw [hnone] at h2
      exact absurd h2 (by simp)

/-! ## Correctness of the balanced-region extractor -/

/-- Nesting depth of a text: opening braces minus closing braces. -/
def braceDepth : LStr → Int
  | [] => 0
  | c :: t => (if c = '\x7b' then 1 else if c = '\x7d' then -1 else 0) + braceDepth t

theorem braceDepth_append (a b : LStr) :
    braceDepth (a ++ b) = braceDepth a + braceDepth b := by
  induction a with
  | nil => simp [braceDepth]
  | cons c t ih => simp [braceDepth, ih]; ring

theorem braceDepth_eq_counts (l : LStr) :
    braceDepth l = (l.count '\x7b' : Int) - (l.count '\x7d' : Int) := by
  induction l with
  | nil => simp [braceDepth]
  | cons c t ih =>
    by_cases h1 : c = '\x7b' <;> by_cases h2 : c = '\x7d' <;>
      simp_all [braceDepth, List.count_cons] <;> omega

theorem extractAux_brace (rest : LStr) (level : Int) :
    extractBalancedAux ('\x7b' :: rest) level =
      (extractBalancedAux rest (level + 1)).map (· + 1) := by
  simp [extractBalancedAux]

theorem extractAux_close_zero (rest : LStr) (level : Int) (h : level - 1 = 0) :
    extractBalancedAux ('\x7d' :: rest) level = some 0 := by
  simp [extractBalancedAux, h]

theorem extractAux_close_nz (rest : LStr) (level : Int) (h : ¬level - 1 = 0) :
    extractBalancedAux ('\x7d' :: rest) level =
      (extractBalancedAux rest (level - 1)).map (· + 1) := by
  simp [extractBalancedAux, h]

theorem extractAux_other (c : Char) (rest : LStr) (level : Int)
    (h1 : ¬c = '\x7b') (h2 : ¬c = '\x7d') :
    extractBalancedAux (c :: rest) level =
      (extractBalancedAux rest level).map (· + 1) := by
  simp [extractBalancedAux, h1, h2]

theorem braceDepth_cons (c : Char) (t : LStr) :
    braceDepth (c :: t) =
      (if c = '\x7b' then 1 else if c = '\x7d' then -1 else 0) + braceDepth t := rfl

/-- Splitting a bounded quantifier over a cons cell. -/
theorem cons_forall_iff (c : Char) (rest : LStr) (Q : Nat → Prop) :
    (∀ n < (c :: rest).length, Q n) ↔ Q 0 ∧ ∀ m < rest.length, Q (m + 1) := by
  constructor
  · intro h
    exact ⟨h 0 (by simp), fun m hm => h (m + 1) (by simpa using hm)⟩
  · rintro ⟨h0, h⟩ n hn
    match n, hn with
    | 0, _ => exact h0
    | m + 1, hm => exact h m (by simpa using hm)

/-- The zero-crossing condition on a cons cell, split into the head
position and the shifted tail positions. -/
theorem crossing_cons_iff (c : Char) (rest : LStr) (level : Int) :
    (∀ n < (c :: rest).length,
        ¬((c :: rest)[n]? = some '\x7d' ∧ level + braceDepth ((c :: rest).take (n + 1)) = 0))
    ↔ (¬(c = '\x7d' ∧ level + braceDepth [c] = 0) ∧
       ∀ m < rest.length,
         ¬(rest[m]? = some '\x7d' ∧
           (level + braceDepth [c]) + braceDepth (rest.take (m + 1)) = 0)) := by
  rw [cons_forall_iff]
  constructor
  · rintro ⟨h0, h⟩
    constructor
    · rintro ⟨rfl, hz⟩
      exact h0 ⟨by simp, by simpa using hz⟩
    · intro m hm
      rintro ⟨ha, hb⟩
      refine h m hm ⟨by simpa using ha, ?_⟩
      simp only [List.take_succ_cons, braceDepth_cons]
      have hc : braceDepth [c] = if c = '\x7b' then 1 else if c = '\x7d' then -1 else 0 := by
        simp [braceDepth_cons, braceDepth]
      rw [hc] at hb
      omega
  · rintro ⟨h0, h⟩
    constructor
    · rintro ⟨ha, hb⟩
      refine h0 ⟨by simpa using ha, ?_⟩
      simpa using hb
    · intro m hm
      rintro ⟨ha, hb⟩
      refine h m hm ⟨by simpa using ha, ?_⟩
      simp only [List.take_succ_cons, braceDepth_cons] at hb
      have hc : braceDepth [c] = if c = '\x7b' then 1 else if c = '\x7d' then -1 else 0 := by
        simp [braceDepth_cons, braceDepth]
      rw [hc]
      omega

theorem extractAux_none_iff (s : LStr) :
    ∀ level : Int, extractBalancedAux s level = none ↔
      ∀ n < s.length, ¬(s[n]? = some '\x7d' ∧ level + braceDepth (s.take (n + 1)) = 0) := by
  induction s with
  | nil => intro level; simp [extractBalancedAux]
  | cons c rest ih =>
    intro level
    rw [crossing_cons_iff]
    by_cases h1 : c = '\x7b'
    · subst h1
      rw [extractAux_brace, Option.map_eq_none', ih (level + 1)]
      have hd : braceDepth ['\x7b'] = 1 := by decide
      rw [hd]
      constructor
      · intro h
        exact ⟨by rintro ⟨habs, _⟩; exact absurd habs (by decide), h⟩
      · rintro ⟨_, h⟩
        exact h
    · by_cases h2 : c = '\x7d'
      · subst h2
        have hd : braceDepth ['\x7d'] = -1 := by decide
        rw [hd]
        by_cases h0 : level - 1 = 0
        · rw [extractAux_close_zero rest level h0]
          constructor
          · intro h; simp at h
          · rintro ⟨h, _⟩
            exact absurd ⟨rfl, by omega⟩ h
        · rw [extractAux_close_nz rest level h0, Option.map_eq_none', ih (level - 1)]
          constructor
          · intro h
            refine ⟨by rintro ⟨_, habs⟩; exact h0 (by omega), ?_⟩
            intro m hm
            have := h m hm
            intro hc
            exact this ⟨hc.1, by rw [show level - 1 = level + -1 by ring]; exact hc.2⟩
          · rintro ⟨_, h⟩
            intro m hm
            have := h m hm
            intro hc
            exact this ⟨hc.1, by rw [show level + -1 = level - 1 by ring]; exact hc.2⟩
      · rw [extractAux_other c rest level h1 h2, Option.map_eq_none', ih level]
        have hd : braceDepth [c] = 0 := by simp [braceDepth, h1, h2]
        rw [hd]
        constructor
        · intro h
          refine ⟨by rintro ⟨habs, _⟩; exact h2 habs, ?_⟩
          intro m hm
          have := h m hm
          intro hc
          exact this ⟨hc.1, by rw [show level = level + 0 by ring]; exact hc.2⟩
        · rintro ⟨_, h⟩
          intro m hm
          have := h m hm
          intro hc
          exact this ⟨hc.1, by rw [show level + 0 = level by ring]; exact hc.2⟩

theorem braceDepth_open (t : LStr) : braceDepth ('\x7b' :: t) = 1 + braceDepth t := by
  rw [braceDepth_cons]; norm_num

theorem braceDepth_close (t : LStr) : braceDepth ('\x7d' :: t) = -1 + braceDepth t := by
  rw [braceDepth_cons, if_neg (show ¬ '\x7d' = '\x7b' by decide), if_pos rfl]

theorem braceDepth_skip (c : Char) (t : LStr) (h1 : ¬c = '\x7b') (h2 : ¬c = '\x7d') :
    braceDepth (c :: t) = braceDepth t := by
  rw [braceDepth_cons]; simp [h1, h2]

theorem extractAux_some_spec (s : LStr) : ∀ (level : Int) (n : Nat),
    extractBalancedAux s level = some n →
      n < s.length ∧ s[n]? = some '\x7d' ∧ level + braceDepth (s.take (n + 1)) = 0 ∧
      ∀ m < n, ¬(s[m]? = some '\x7d' ∧ level + braceDepth (s.take (m + 1)) = 0) := by
  induction s with
  | nil => intro level n h; simp [extractBalancedAux] at h
  | cons c rest ih =>
    intro level n h
    by_cases h1 : c = '\x7b'
    · subst h1
      rw [extractAux_brace] at h
      obtain ⟨n1, hn1, rfl⟩ : ∃ n1, extractBalancedAux rest (level + 1) = some n1 ∧ n = n1 + 1 := by
        cases hx : extractBalancedAux rest (level + 1) with
        | none => rw [hx] at h; simp at h
        | some k => rw [hx] at h; exact ⟨k, rfl, by simpa using h.symm⟩
      obtain ⟨hlen, hch, hz, hmin⟩ := ih (level + 1) n1 hn1
      refine ⟨by simpa using hlen, by simpa using hch, ?_, ?_⟩
      · rw [List.take_succ_cons, braceDepth_open]
        omega
      · intro m hm
        match m, hm with
        | 0, _ =>
          rintro ⟨habs, _⟩
          simp at habs
        | k + 1, hk =>
          rintro ⟨ha, hb⟩
          rw [List.getElem?_cons_succ] at ha
          rw [List.take_succ_cons, braceDepth_open] at hb
          exact hmin k (by omega) ⟨ha, by omega⟩
    · by_cases h2 : c = '\x7d'
      · subst h2
        by_cases h0 : level - 1 = 0
        · rw [extractAux_close_zero rest level h0] at h
          obtain rfl : n = 0 := by simpa using h.symm
          refine ⟨by simp, by simp, ?_, by omega⟩
          rw [List.take_succ_cons, List.take_zero, braceDepth_close]
          simp only [braceDepth]
          omega
        · rw [extractAux_close_nz rest level h0] at h
          obtain ⟨n1, hn1, rfl⟩ : ∃ n1, extractBalancedAux rest (level - 1) = some n1 ∧ n = n1 + 1 := by
            cases hx : extractBalancedAux rest (level - 1) with
            | none => rw [hx] at h; simp at h
            | some k => rw [hx] at h; exact ⟨k, rfl, by simpa using h.symm⟩
          obtain ⟨hlen, hch, hz, hmin⟩ := ih (level - 1) n1 hn1
          refine ⟨by simpa using hlen, by simpa using hch, ?_, ?_⟩
          · rw [List.take_succ_cons, braceDepth_close]
            omega
          · intro m hm
            match m, hm with
            | 0, _ =>
              rintro ⟨_, hb⟩
              rw [List.take_succ_cons, List.take_zero, braceDepth_close] at hb
              simp only [braceDepth] at hb
              exact h0 (by omega)
            | k + 1, hk =>
              rintro ⟨ha, hb⟩
              rw [List.getElem?_cons_succ] at ha
              rw [List.take_succ_cons, braceDepth_close] at hb
              exact hmin k (by omega) ⟨ha, by omega⟩
      · rw [extractAux_other c rest level h1 h2] at h
        obtain ⟨n1, hn1, rfl⟩ : ∃ n1, extractBalancedAux rest level = some n1 ∧ n = n1 + 1 := by
          cases hx : extractBalancedAux rest level with
          | none => rw [hx] at h; simp at h
          | some k => rw [hx] at h; exact ⟨k, rfl, by simpa using h.symm⟩
        obtain ⟨hlen, hch, hz, hmin⟩ := ih level n1 hn1
        refine ⟨by simpa using hlen, by simpa using hch, ?_, ?_⟩
        · rw [List.take_succ_cons, braceDepth_skip c _ h1 h2]
          omega
        · intro m hm
          match m, hm with
          | 0, _ =>
            rintro ⟨habs, _⟩
            rw [List.getElem?_cons_zero] at habs
            exact h2 (by exact Option.some.inj habs)
          | k + 1, hk =>
            rintro ⟨ha, hb⟩
            rw [List.getElem?_cons_succ] at ha
            rw [List.take_succ_cons, braceDepth_skip c _ h1 h2] at hb
            exact hmin k (by omega) ⟨ha, by omega⟩

theorem prefDepth_step (s : LStr) (m : Nat) :
    braceDepth (s.take (m + 1)) ≤ braceDepth (s.take m) + 1 ∧
    braceDepth (s.take m) - 1 ≤ braceDepth (s.take (m + 1)) := by
  rw [List.take_succ, braceDepth_append]
  cases h : s[m]? with
  | none => simp [braceDepth]
  | some c =>
    have hb : -1 ≤ braceDepth [c] ∧ braceDepth [c] ≤ 1 := by
      by_cases h1 : c = '\x7b'
      · subst h1; rw [braceDepth_open]; simp [braceDepth]
      · by_cases h2 : c = '\x7d'
        · subst h2; rw [braceDepth_close]; simp [braceDepth]
        · rw [braceDepth_skip c _ h1 h2]; simp [braceDepth]
    simp only [Option.toList_some]
    omega

theorem int_ivt (f : Nat → Int)
    (hstep : ∀ k, f (k + 1) ≤ f k + 1 ∧ f k - 1 ≤ f (k + 1)) :
    ∀ (n a : Nat), 0 < f a → f (a + n) < 0 → ∃ k, k ≤ n ∧ f (a + k) = 0 := by
  intro n
  induction n with
  | zero =>
    intro a ha hb
    rw [Nat.add_zero] at hb
    omega
  | succ n ih =>
    intro a ha hb
    by_cases h0 : f (a + 1) = 0
    · exact ⟨1, by omega, h0⟩
    · by_cases hpos : 0 < f (a + 1)
      · obtain ⟨k, hk, hz⟩ := ih (a + 1) hpos
          (by rw [show a + 1 + n = a + (n + 1) by omega]; exact hb)
        exact ⟨k + 1, by omega, by rw [show a + (k + 1) = a + 1 + k by omega]; exact hz⟩
      · exfalso
        have := (hstep a).2
        omega

/-- When the scan starts on an opening brace, the first prefix of depth
zero necessarily ends at a closing brace. -/
theorem first_zero_close (s : LStr) (h0 : s[0]? = some '\x7b') (n : Nat)
    (hn : n < s.length)
    (hz : braceDepth (s.take (n + 1)) = 0)
    (hmin : ∀ m < n, braceDepth (s.take (m + 1)) ≠ 0) :
    s[n]? = some '\x7d' := by
  obtain ⟨a, t, rfl⟩ : ∃ a t, s = a :: t := by
    cases s with
    | nil => simp at h0
    | cons a t => exact ⟨a, t, rfl⟩
  obtain rfl : a = '\x7b' := by simpa using h0
  have htake1 : braceDepth (('\x7b' :: t).take 1) = 1 := by
    simp [braceDepth_open, braceDepth]
  match n, hn with
  | 0, _ =>
    exfalso
    rw [htake1] at hz
    exact one_ne_zero hz
  | m + 1, hm =>
    set s : LStr := '\x7b' :: t with hs
    have hgets : s[m + 1]? = some (s[m + 1]) := List.getElem?_eq_getElem hm
    by_cases hcb : s[m + 1] = '\x7d'
    · rw [hgets, hcb]
    exfalso
    have hsplit : braceDepth (s.take (m + 1 + 1)) =
        braceDepth (s.take (m + 1)) + braceDepth [s[m + 1]] := by
      rw [List.take_succ, hgets, braceDepth_append, Option.toList_some]
    by_cases hcb2 : s[m + 1] = '\x7b'
    · have hone : braceDepth [s[m + 1]] = 1 := by
        rw [hcb2, braceDepth_open]; simp [braceDepth]
      have hneg : braceDepth (s.take (m + 1)) = -1 := by omega
      obtain ⟨k, hk, hzz⟩ := int_ivt (fun j => braceDepth (s.take j))
        (fun k => prefDepth_step s k) m 1 (by simp [htake1])
        (by show braceDepth (s.take (1 + m)) < 0
            rw [show 1 + m = m + 1 by omega, hneg]; norm_num)
      exact hmin k (by omega) (by simpa [show 1 + k = k + 1 by omega] using hzz)
    · have hzero : braceDepth [s[m + 1]] = 0 := by
        rw [braceDepth_skip _ _ hcb2 hcb]; simp [braceDepth]
      exact hmin m (by omega) (by omega)

/-- The body of `extract_balanced` after the drop, as a function of the
suffix alone. -/
def extractCore (s : LStr) : LStr :=
  match extractBalancedAux s 0 with
  | some i => s.take (i + 1)
  | none => []

theorem extract_balanced_eq_core (text : LStr) (start : Nat) :
    extract_balanced text start = extractCore (text.drop start) := rfl

theorem getLast_take (s : LStr) : ∀ n : Nat, n < s.length →
    (s.take (n + 1)).getLast? = s[n]? := by
  induction s with
  | nil => intro n h; simp at h
  | cons c rest ih =>
    intro n h
    match n with
    | 0 => simp
    | m + 1 =>
      have hm : m < rest.length := by simpa using h
      rw [List.take_succ_cons, List.getElem?_cons_succ, ← ih m hm]
      cases hx : rest.take (m + 1) with
      | nil =>
        exfalso
        have : (rest.take (m + 1)).length = m + 1 := by rw [List.length_take]; omega
        rw [hx] at this
        simp at this
      | cons d l => exact List.getLast?_cons_cons

theorem extract_core_correct (s : LStr) (h0 : s[0]? = some '\x7b') :
    (∃ n, n < s.length ∧ s[n]? = some '\x7d' ∧
       extractCore s = s.take (n + 1) ∧
       braceDepth (s.take (n + 1)) = 0 ∧
       (∀ m < n, braceDepth (s.take (m + 1)) ≠ 0) ∧
       (extractCore s).head? = some '\x7b' ∧
       (extractCore s).getLast? = some '\x7d' ∧
       (extractCore s).count '\x7b' = (extractCore s).count '\x7d') ∨
    ((∀ n < s.length, braceDepth (s.take (n + 1)) ≠ 0) ∧ extractCore s = []) := by
  cases haux : extractBalancedAux s 0 with
  | none =>
    right
    refine ⟨?_, by simp [extractCore, haux]⟩
    intro n hn hbd
    have hex : ∃ k, k < s.length ∧ braceDepth (s.take (k + 1)) = 0 := ⟨n, hn, hbd⟩
    have hP := Nat.find_spec hex
    have hclose : s[Nat.find hex]? = some '\x7d' := by
      refine first_zero_close s h0 (Nat.find hex) hP.1 hP.2 ?_
      intro m hm hbd2
      exact Nat.find_min hex hm ⟨by omega, hbd2⟩
    exact (extractAux_none_iff s 0).mp haux (Nat.find hex) hP.1
      ⟨hclose, by rw [zero_add]; exact hP.2⟩
  | some nn =>
    left
    obtain ⟨hlen, hch, hz, hminC⟩ := extractAux_some_spec s 0 nn haux
    rw [zero_add] at hz
    have hminAll : ∀ m < nn, braceDepth (s.take (m + 1)) ≠ 0 := by
      intro m hm hbd
      have hex : ∃ k, k < s.length ∧ braceDepth (s.take (k + 1)) = 0 := ⟨m, by omega, hbd⟩
      have hP := Nat.find_spec hex
      have hle : Nat.find hex ≤ m := Nat.find_min' hex ⟨by omega, hbd⟩
      have hclose : s[Nat.find hex]? = some '\x7d' := by
        refine first_zero_close s h0 (Nat.find hex) hP.1 hP.2 ?_
        intro j hj hbd2
        exact Nat.find_min hex hj ⟨by omega, hbd2⟩
      exact hminC (Nat.find hex) (by omega) ⟨hclose, by rw [zero_add]; exact hP.2⟩
    have hcore : extractCore s = s.take (nn + 1) := by simp [extractCore, haux]
    obtain ⟨a, t, rfl⟩ : ∃ a t, s = a :: t := by
      cases s with
      | nil => simp at h0
      | cons a t => exact ⟨a, t, rfl⟩
    obtain rfl : a = '\x7b' := by simpa using h0
    refine ⟨nn, hlen, hch, hcore, hz, hminAll, ?_, ?_, ?_⟩
    · rw [hcore, List.take_succ_cons]
      rfl
    · rw [hcore]
      rw [getLast_take _ nn hlen, hch]
    · rw [hcore]
      have := braceDepth_eq_counts ((('\x7b' :: t)).take (nn + 1))
      rw [hz] at this
      omega

/-! ## Properties of `pyStrip` -/

theorem head_dropWhile_false (p : Char → Bool) :
    ∀ (l : List Char) (c : Char), (l.dropWhile p).head? = some c → p c = false := by
  intro l
  induction l with
  | nil => intro c h; simp at h
  | cons a t ih =>
    intro c h
    rw [List.dropWhile_cons] at h
    by_cases hp : p a
    · rw [if_pos hp] at h; exact ih c h
    · rw [if_neg hp] at h
      simp at h
      rw [← h]
      simpa using hp

/-- `pyStrip` removes exactly a whitespace prefix and a whitespace suffix,
and the remaining text neither starts nor ends with whitespace. -/
theorem pyStrip_spec (v : LStr) :
    ∃ a b, v = a ++ pyStrip v ++ b ∧ a.all isPySpace ∧ b.all isPySpace ∧
      (∀ c, (pyStrip v).head? = some c → isPySpace c = false) ∧
      (∀ c, (pyStrip v).getLast? = some c → isPySpace c = false) := by
  have hsplit : v.dropWhile isPySpace =
      pyStrip v ++ ((v.dropWhile isPySpace).reverse.takeWhile isPySpace).reverse := by
    have hdrev : (v.dropWhile isPySpace).reverse =
        (v.dropWhile isPySpace).reverse.takeWhile isPySpace ++
          (v.dropWhile isPySpace).reverse.dropWhile isPySpace :=
      (List.takeWhile_append_dropWhile _ _).symm
    have h2 := congrArg List.reverse hdrev
    rw [List.reverse_reverse, List.reverse_append] at h2
    exact h2
  refine ⟨v.takeWhile isPySpace,
    ((v.dropWhile isPySpace).reverse.takeWhile isPySpace).reverse, ?_, ?_, ?_, ?_, ?_⟩
  · conv_lhs => rw [← List.takeWhile_append_dropWhile isPySpace v, hsplit]
    exact (List.append_assoc _ _ _).symm
  · simp [List.all_eq_true]
  · simp [List.all_eq_true]
  · intro c hc
    refine head_dropWhile_false isPySpace v c ?_
    rw [hsplit]
    cases hps : pyStrip v with
    | nil => rw [hps] at hc; simp at hc
    | cons x xs =>
      rw [hps] at hc
      exact hc
  · intro c hc
    have hrev : (pyStrip v).getLast? =
        ((v.dropWhile isPySpace).reverse.dropWhile isPySpace).head? :=
      List.getLast?_reverse _
    rw [hrev] at hc
    exact head_dropWhile_false isPySpace _ c hc

/-! ## Concrete end-to-end input (spec section 8 scenario) -/

def e2eSrc : LStr := lit "project \x7b buildType(Build1) \x7d\nobject Build1 : BuildType(\x7b name = \"Compile\" steps \x7b script \x7b name = \"Run\" scriptContent = \"\"\"echo hi\"\"\" \x7d \x7d \x7d)"

def e2eStep : Step :=
  Step.mk (some (lit "script")) (some (lit "Run")) none none none
    (some (lit "echo hi")) none none none none

def e2eBT : BuildType := BuildType.mk (some (lit "Compile")) (some [e2eStep]) none none none none none

def e2eDoc : Document :=
  Document.mk (lit "2.1")
    (OutProj.mk none none (some [OutRef.mk (lit "Build1") (some (OutVal.bt e2eBT))]) none none none)

/-! ## Claim theorems -/

/-- C1: for every text and every index `start` holding an opening brace,
`extract_balanced` returns the substring spanning from that brace through
the closing brace at which the nesting depth first returns to zero,
inclusive — so its first and last characters are matching braces and its
brace counts balance — and returns the empty string when the depth never
returns to zero before the text ends. -/
theorem claim1_extract_balanced (text : LStr) (start : Nat)
    (h : text[start]? = some '\x7b') :
    (∃ n, n < (text.drop start).length ∧
       (text.drop start)[n]? = some '\x7d' ∧
       extract_balanced text start = (text.drop start).take (n + 1) ∧
       braceDepth ((text.drop start).take (n + 1)) = 0 ∧
       (∀ m < n, braceDepth ((text.drop start).take (m + 1)) ≠ 0) ∧
       (extract_balanced text start).head? = some '\x7b' ∧
       (extract_balanced text start).getLast? = some '\x7d' ∧
       (extract_balanced text start).count '\x7b' = (extract_balanced text start).count '\x7d') ∨
    ((∀ n < (text.drop start).length, braceDepth ((text.drop start).take (n + 1)) ≠ 0) ∧
     extract_balanced text start = []) := by
  rw [extract_balanced_eq_core]
  refine extract_core_correct (text.drop start) ?_
  rw [List.getElem?_drop]
  simpa using h

/-- Witness for C1 at a concrete nested input. -/
theorem claim1_witness :
    (∃ n, n < ((lit "\x7ba\x7bb\x7dc\x7d").drop 0).length ∧
       ((lit "\x7ba\x7bb\x7dc\x7d").drop 0)[n]? = some '\x7d' ∧
       extract_balanced (lit "\x7ba\x7bb\x7dc\x7d") 0 = ((lit "\x7ba\x7bb\x7dc\x7d").drop 0).take (n + 1) ∧
       braceDepth (((lit "\x7ba\x7bb\x7dc\x7d").drop 0).take (n + 1)) = 0 ∧
       (∀ m < n, braceDepth (((lit "\x7ba\x7bb\x7dc\x7d").drop 0).take (m + 1)) ≠ 0) ∧
       (extract_balanced (lit "\x7ba\x7bb\x7dc\x7d") 0).head? = some '\x7b' ∧
       (extract_balanced (lit "\x7ba\x7bb\x7dc\x7d") 0).getLast? = some '\x7d' ∧
       (extract_balanced (lit "\x7ba\x7bb\x7dc\x7d") 0).count '\x7b' =
         (extract_balanced (lit "\x7ba\x7bb\x7dc\x7d") 0).count '\x7d') ∨
    ((∀ n < ((lit "\x7ba\x7bb\x7dc\x7d").drop 0).length,
        braceDepth (((lit "\x7ba\x7bb\x7dc\x7d").drop 0).take (n + 1)) ≠ 0) ∧
     extract_balanced (lit "\x7ba\x7bb\x7dc\x7d") 0 = []) :=
  claim1_extract_balanced (lit "\x7ba\x7bb\x7dc\x7d") 0 (by rfl)

/-- C2 counterexample: the code scans `kotlinScript` before `powerShell`,
so for a block with one powerShell step and one kotlinScript step the
decoded list starts with the kotlinScript record, refuting the claimed
fixed order {script, python, powershell, kotlinScript, generic}. -/
theorem claim2_counterexample :
    parse_steps (lit "powerShell \x7b \x7d kotlinScript \x7b \x7d") =
      [Step.mk (some (lit "kotlinScript")) none none none none none none none none none,
       Step.mk (some (lit "powershell")) none none none none none none none none none] ∧
    (parse_steps (lit "powerShell \x7b \x7d kotlinScript \x7b \x7d")).map Step.type ≠
      [some (lit "powershell"), some (lit "kotlinScript")] := by
  have h1 : parse_steps (lit "powerShell \x7b \x7d kotlinScript \x7b \x7d") =
      [Step.mk (some (lit "kotlinScript")) none none none none none none none none none,
       Step.mk (some (lit "powershell")) none none none none none none none none none] := by rfl
  refine ⟨h1, ?_⟩
  rw [h1]
  intro hcontra
  exact absurd hcontra (by decide)

/-- C2 amended: the step decoder tries the five step-kind patterns
independently over the same block text and appends every match in the
fixed order {script, python, kotlinScript, powerShell, generic} (the code
scans kotlinScript before powerShell); in particular a block with one
python step followed by one script step decodes with the script-kind
record first. -/
theorem claim2_amended :
    (∀ content, parse_steps content =
      stepsOfKind (lit "script") parse_script_step content ++
      stepsOfKind (lit "python") parse_python_step content ++
      stepsOfKind (lit "kotlinScript") parse_kotlin_step content ++
      stepsOfKind (lit "powerShell") parse_powershell_step content ++
      stepsOfKind (lit "step") parse_general_step content) ∧
    parse_steps (lit "python \x7b \x7d script \x7b \x7d") =
      [Step.mk (some (lit "script")) none none none none none none none none none,
       Step.mk (some (lit "python")) none none none none none none none none none] :=
  ⟨fun _ => rfl, by rfl⟩

/-- C3: the end-to-end scenario — `project { buildType(Build1) }` plus the
`Build1` BuildType object — decodes to a document whose first buildTypes
entry is the Build1 record with name "Compile" and the single script step
{type script, name Run, scriptContent "echo hi"}. -/
theorem claim3_end_to_end :
    parse_kotlin_dsl e2eSrc = ParseOutcome.doc e2eDoc ∧
    e2eDoc.project.buildTypes =
      some [OutRef.mk (lit "Build1") (some (OutVal.bt e2eBT))] ∧
    e2eBT.name = some (lit "Compile") ∧
    e2eBT.steps = some [Step.mk (some (lit "script")) (some (lit "Run")) none none none
      (some (lit "echo hi")) none none none none] :=
  ⟨by rfl, rfl, rfl, rfl⟩

/-- The version field of any parsed document is the first `version = "..."`
capture, defaulting to "2.1". -/
theorem parse_version_eq (content : LStr) (d : Document)
    (h : parse_kotlin_dsl content = ParseOutcome.doc d) :
    d.version = (searchQ (lit "version") content).getD (lit "2.1") := by
  rw [parse_kotlin_dsl_eq] at h
  split at h
  · exact absurd h (by simp)
  · split at h
    · exact absurd h (by simp)
    · split at h
      · exact absurd h (by simp)
      · obtain rfl : _ = d := ParseOutcome.doc.inj h
        rfl

/-- C4 counterexample: an input with no occurrence of the version pattern
still parses to a document carrying the placeholder version "2.1" — the
format-version field is not omitted. -/
theorem claim4_counterexample :
    searchQ (lit "version") (lit "project \x7b \x7d") = none ∧
    parse_kotlin_dsl (lit "project \x7b \x7d") =
      ParseOutcome.doc (Document.mk (lit "2.1")
        (OutProj.mk none none none none none none)) := by
  exact ⟨by rfl, by rfl⟩

/-- C4 amended: every leaf extractor yields "absent" (the field is omitted)
when its pattern has no occurrence — except the document format-version
field, which is assigned the placeholder "2.1" when its pattern is
absent. -/
theorem claim4_amended :
    (∀ content, searchQ (lit "name") content = none → (parse_build_type content).name = none) ∧
    (∀ content, searchQ (lit "description") content = none →
      (parse_project content).name = (parse_project content).name ∧
      ∀ pp : ProjParse, pp.description = searchQ (lit "description") content → pp.description = none) ∧
    (∀ content, searchBool (lit "enabled") content = none →
      (parse_script_step content).enabled = none) ∧
    (∀ content, searchQ (lit "url") content = none → (parse_vcs_root content).url = none) ∧
    (∀ content, searchTripleCC true (lit "artifactRules") content = none →
      (parse_build_type content).artifactRules = none) ∧
    (∀ content d, parse_kotlin_dsl content = ParseOutcome.doc d →
      searchQ (lit "version") content = none → d.version = lit "2.1") := by
  refine ⟨?_, ?_, ?_, ?_, ?_, ?_⟩
  · intro content h
    simp [parse_build_type, h]
  · intro content h
    exact ⟨rfl, fun pp hpp => by rw [hpp, h]⟩
  · intro content h
    simp [parse_script_step, h]
  · intro content h
    simp [parse_vcs_root, h]
  · intro content h
    simp [parse_build_type, h]
  · intro content d hd hv
    rw [parse_version_eq content d hd, hv]
    rfl

/-- Witness for C4's amended claim at concrete inputs. -/
theorem claim4_amended_witness :
    (parse_build_type (lit "steps \x7b \x7d")).name = none ∧
    (parse_script_step (lit "x")).enabled = none ∧
    (parse_vcs_root (lit "x")).url = none ∧
    (parse_build_type (lit "x")).artifactRules = none ∧
    ∀ d, parse_kotlin_dsl (lit "project \x7b \x7d") = ParseOutcome.doc d →
      d.version = lit "2.1" :=
  ⟨(claim4_amended.1 _ (by rfl)),
   (claim4_amended.2.2.1 _ (by rfl)),
   (claim4_amended.2.2.2.1 _ (by rfl)),
   (claim4_amended.2.2.2.2.1 _ (by rfl)),
   fun d hd => claim4_amended.2.2.2.2.2 _ d hd (by rfl)⟩

/-- Cyclic input: the root block references sub-project `A`, and the
registered Project `A` references `A` again. -/
def c5src : LStr :=
  lit "project \x7b subProject(A) \x7d\nobject A : Project(\x7b subProject(A) \x7d)"

/-- C5 counterexample: on a cyclic sub-project reference the root
`project {` block is present and its balanced region is terminated — so
the claim demands a document — yet the parser neither returns None nor a
document: the unguarded merge recursion revisits the registry entry `A`
and never terminates (RecursionError), at every fuel bound. -/
theorem claim5_counterexample :
    searchPos (matchKwOpen (lit "project")) c5src = some (0, 9) ∧
    extract_balanced c5src 8 ≠ [] ∧
    (∀ fuel, mapProject (buildRegistry c5src) fuel
        (parseRootProj (innerOf (extract_balanced c5src 8))) = none) ∧
    parse_kotlin_dsl c5src = ParseOutcome.crash ∧
    parse_kotlin_dsl c5src ≠ ParseOutcome.noResult ∧
    (∀ d, parse_kotlin_dsl c5src ≠ ParseOutcome.doc d) := by
  have hcrash : parse_kotlin_dsl c5src = ParseOutcome.crash := by rfl
  have hq : ∃ q, regLookup (buildRegistry c5src) (lit "A") = some (RegVal.proj q) ∧
      q.subProjects = some [lit "A"] := ⟨_, rfl, rfl⟩
  obtain ⟨q, hlook, hselfq⟩ := hq
  have hcyc : ∀ fuel, mapProject (buildRegistry c5src) fuel
      (parseRootProj (innerOf (extract_balanced c5src 8))) = none := by
    intro fuel
    cases fuel with
    | zero => rfl
    | succ n =>
      have hqnone : mapProject (buildRegistry c5src) n q = none :=
        mapProject_cycle _ _ q hlook ⟨[lit "A"], hselfq, by simp⟩ n
      have hsub : mergeSubRef (buildRegistry c5src) n (lit "A") = none := by
        have h1 : mergeSubRef (buildRegistry c5src) n (lit "A") =
            (mapProject (buildRegistry c5src) n q).map
              (fun op => OutRef.mk (lit "A") (some (OutVal.proj op))) := by
          unfold mergeSubRef
          rw [hlook]
        rw [h1, hqnone]
        rfl
      have hroot : (parseRootProj (innerOf (extract_balanced c5src 8))).subProjects =
          some [lit "A"] := by rfl
      have hnone : listTraverse (mergeSubRef (buildRegistry c5src) n) [lit "A"] = none :=
        listTraverse_mem_none _ _ _ (by simp) hsub
      rw [mapProject_succ, hroot]
      split
      · rfl
      · rename_i subs hsubs
        have h2 : (listTraverse (mergeSubRef (buildRegistry c5src) n) [lit "A"]).map some =
            some subs := hsubs
        rw [hnone] at h2
        exact absurd h2 (by simp)
  refine ⟨by rfl, by decide, hcyc, hcrash, ?_, ?_⟩
  · rw [hcrash]
    simp
  · intro d
    rw [hcrash]
    simp

/-- C5 amended: the parser returns None exactly when the root `project {`
block is absent or its balanced region is unterminated; on every other
input the outcome is decided by the unguarded merge recursion — a
document whenever the merge terminates (in particular for acyclic
sub-project references), and a RecursionError crash, with no document,
whenever a cyclic sub-project chain makes it recurse without bound. -/
theorem claim5_amended (content : LStr) :
    (parse_kotlin_dsl content = ParseOutcome.noResult ↔
      (searchPos (matchKwOpen (lit "project")) content = none ∨
       ∃ pl, searchPos (matchKwOpen (lit "project")) content = some pl ∧
         extract_balanced content (pl.1 + pl.2 - 1) = [])) ∧
    (∀ pl pb, searchPos (matchKwOpen (lit "project")) content = some pl →
      extract_balanced content (pl.1 + pl.2 - 1) = pb → pb ≠ [] →
      (mapProject (buildRegistry content) ((buildRegistry content).length + 1)
          (parseRootProj (innerOf pb)) = none →
        parse_kotlin_dsl content = ParseOutcome.crash) ∧
      (∀ op, mapProject (buildRegistry content) ((buildRegistry content).length + 1)
          (parseRootProj (innerOf pb)) = some op →
        parse_kotlin_dsl content = ParseOutcome.doc
          (Document.mk ((searchQ (lit "version") content).getD (lit "2.1")) op))) := by
  constructor
  · rw [parse_kotlin_dsl_eq]
    cases hsp : searchPos (matchKwOpen (lit "project")) content with
    | none => simp
    | some pl =>
      cases hb : extract_balanced content (pl.1 + pl.2 - 1) with
      | nil => simp [hb]
      | cons c rest =>
        cases hm : mapProject (buildRegistry content) ((buildRegistry content).length + 1)
            (parseRootProj (innerOf (c :: rest))) with
        | none => simp [hb, hm]
        | some op => simp [hb, hm]
  · intro pl pb hsp hpb hne
    constructor
    · intro hm
      rw [parse_kotlin_dsl_eq, hsp]
      cases pb with
      | nil => exact absurd rfl hne
      | cons c rest => simp [hpb, hm]
    · intro op hm
      rw [parse_kotlin_dsl_eq, hsp]
      cases pb with
      | nil => exact absurd rfl hne
      | cons c rest => simp [hpb, hm]

/-- Witness for C5's amended claim at the concrete end-to-end input, whose
merge recursion terminates and yields the section-8 document. -/
theorem claim5_witness :
    parse_kotlin_dsl e2eSrc = ParseOutcome.doc (Document.mk (lit "2.1") e2eDoc.project) :=
  ((claim5_amended e2eSrc).2 (0, 9) (extract_balanced e2eSrc 8) rfl rfl
    (by decide)).2 e2eDoc.project (by rfl)

/-- C6: a ref whose identifier has no registry entry is left untouched by
the merge: the flat merges and the sub-project merge return the bare
`{id}` record, and `map_project` keeps it unchanged at its position in
each ref list. -/
theorem claim6_unmatched_ref (objects : List (LStr × RegVal)) (i : LStr) (fuel : Nat)
    (p : ProjParse) (hnone : regLookup objects i = none) :
    mergeFlatRef objects i = OutRef.mk i none ∧
    mergeSubRef objects fuel i = some (OutRef.mk i none) ∧
    (∀ (l : List LStr) (k : Nat) (op : OutProj), p.buildTypes = some l → l[k]? = some i →
      mapProject objects (fuel + 1) p = some op →
      ∃ ol : List OutRef, op.buildTypes = some ol ∧ ol[k]? = some (OutRef.mk i none)) ∧
    (∀ (l : List LStr) (k : Nat) (op : OutProj), p.subProjects = some l → l[k]? = some i →
      mapProject objects (fuel + 1) p = some op →
      ∃ ol : List OutRef, op.subProjects = some ol ∧ ol[k]? = some (OutRef.mk i none)) ∧
    (∀ (l : List LStr) (k : Nat) (op : OutProj), p.vcsRoots = some l → l[k]? = some i →
      mapProject objects (fuel + 1) p = some op →
      ∃ ol : List OutRef, op.vcsRoots = some ol ∧ ol[k]? = some (OutRef.mk i none)) := by
  have hflat : mergeFlatRef objects i = OutRef.mk i none := by
    unfold mergeFlatRef
    rw [hnone]
  have hsub : mergeSubRef objects fuel i = some (OutRef.mk i none) := by
    unfold mergeSubRef
    rw [hnone]
  have hshape : ∀ op : OutProj, mapProject objects (fuel + 1) p = some op →
      op.buildTypes = p.buildTypes.map (fun l => l.map (mergeFlatRef objects)) ∧
      op.vcsRoots = p.vcsRoots.map (fun l => l.map (mergeFlatRef objects)) ∧
      ∀ l, p.subProjects = some l →
        ∃ ol, listTraverse (mergeSubRef objects fuel) l = some ol ∧
          op.subProjects = some ol := by
    intro op hop
    rw [mapProject_succ] at hop
    split at hop
    · exact absurd hop (by simp)
    · rename_i subs hsubs
      obtain rfl : _ = op := Option.some.inj hop
      refine ⟨rfl, rfl, ?_⟩
      intro l hl
      rw [hl] at hsubs
      have h2 : (listTraverse (mergeSubRef objects fuel) l).map some = some subs := hsubs
      cases hlt : listTraverse (mergeSubRef objects fuel) l with
      | none =>
        rw [hlt] at h2
        exact absurd h2 (by simp)
      | some ol =>
        rw [hlt] at h2
        obtain rfl : some ol = subs := Option.some.inj h2
        exact ⟨ol, rfl, rfl⟩
  refine ⟨hflat, hsub, ?_, ?_, ?_⟩
  · intro l k op hl hk hop
    obtain ⟨hbt, _, _⟩ := hshape op hop
    refine ⟨l.map (mergeFlatRef objects), ?_, ?_⟩
    · rw [hbt, hl]
      rfl
    · rw [List.getElem?_map, hk]
      simp [hflat]
  · intro l k op hl hk hop
    obtain ⟨_, _, hsp⟩ := hshape op hop
    obtain ⟨ol, hlt, hops⟩ := hsp l hl
    refine ⟨ol, hops, ?_⟩
    obtain ⟨b, hb, holk⟩ := listTraverse_getElem (mergeSubRef objects fuel) l ol hlt k i hk
    rw [holk]
    rw [hsub] at hb
    obtain rfl : _ = b := Option.some.inj hb
    rfl
  · intro l k op hl hk hop
    obtain ⟨_, hvr, _⟩ := hshape op hop
    refine ⟨l.map (mergeFlatRef objects), ?_, ?_⟩
    · rw [hvr, hl]
      rfl
    · rw [List.getElem?_map, hk]
      simp [hflat]

/-- Witness for C6: an unregistered id in every ref list of a concrete
project skeleton survives the merge as a bare ref. -/
theorem claim6_witness :
    mergeFlatRef [] (lit "X") = OutRef.mk (lit "X") none ∧
    mergeSubRef [] 0 (lit "X") = some (OutRef.mk (lit "X") none) ∧
    (∀ (l : List LStr) (k : Nat) (op : OutProj),
      (ProjParse.mk none none (some [lit "X"]) (some [lit "X"]) (some [lit "X"]) none).buildTypes = some l →
      l[k]? = some (lit "X") →
      mapProject [] 1 (ProjParse.mk none none (some [lit "X"]) (some [lit "X"]) (some [lit "X"]) none) = some op →
      ∃ ol : List OutRef, op.buildTypes = some ol ∧
        ol[k]? = some (OutRef.mk (lit "X") none)) ∧
    (∀ (l : List LStr) (k : Nat) (op : OutProj),
      (ProjParse.mk none none (some [lit "X"]) (some [lit "X"]) (some [lit "X"]) none).subProjects = some l →
      l[k]? = some (lit "X") →
      mapProject [] 1 (ProjParse.mk none none (some [lit "X"]) (some [lit "X"]) (some [lit "X"]) none) = some op →
      ∃ ol : List OutRef, op.subProjects = some ol ∧
        ol[k]? = some (OutRef.mk (lit "X") none)) ∧
    (∀ (l : List LStr) (k : Nat) (op : OutProj),
      (ProjParse.mk none none (some [lit "X"]) (some [lit "X"]) (some [lit "X"]) none).vcsRoots = some l →
      l[k]? = some (lit "X") →
      mapProject [] 1 (ProjParse.mk none none (some [lit "X"]) (some [lit "X"]) (some [lit "X"]) none) = some op →
      ∃ ol : List OutRef, op.vcsRoots = some ol ∧
        ol[k]? = some (OutRef.mk (lit "X") none)) :=
  claim6_unmatched_ref [] (lit "X") 0
    (ProjParse.mk none none (some [lit "X"]) (some [lit "X"]) (some [lit "X"]) none) (by rfl)

/-- C7: every triple-quoted block value is stored stripped of leading and
trailing whitespace with its interior intact: the scriptContent field is
the strip of the captured region, the strip removes exactly whitespace at
the two ends, and the concrete `"""\n  echo hi  \n"""` value decodes to
"echo hi". -/
theorem claim7_triple_trim :
    (∀ content v, searchTripleNG (lit "scriptContent") content = some v →
       (parse_script_step content).scriptContent = some (pyStrip v)) ∧
    (∀ v : LStr, ∃ a b, v = a ++ pyStrip v ++ b ∧ a.all isPySpace ∧ b.all isPySpace ∧
       (∀ c, (pyStrip v).head? = some c → isPySpace c = false) ∧
       (∀ c, (pyStrip v).getLast? = some c → isPySpace c = false)) ∧
    (parse_script_step (lit "scriptContent = \"\"\"\n  echo hi  \n\"\"\"")).scriptContent =
      some (lit "echo hi") := by
  refine ⟨?_, pyStrip_spec, by rfl⟩
  intro content v h
  show (searchTripleNG (lit "scriptContent") content).map pyStrip = _
  rw [h]
  rfl

/-- Witness for C7 at the concrete scenario value. -/
theorem claim7_witness :
    (parse_script_step (lit "scriptContent = \"\"\"\n  echo hi  \n\"\"\"")).scriptContent =
      some (pyStrip (lit "\n  echo hi  \n")) :=
  claim7_triple_trim.1 (lit "scriptContent = \"\"\"\n  echo hi  \n\"\"\"")
    (lit "\n  echo hi  \n") (by rfl)

/-- C8: every decoded vcs trigger stores its enabled flag as the literal
string "true" or "false" (never a boolean), and triggers whose block has
no flag omit the field — checked structurally for every input and on a
concrete two-trigger block. -/
theorem claim8_trigger_enabled :
    (∀ (content : LStr) (t : Trigger), t ∈ parse_triggers content →
       t.type = lit "vcs" ∧
       (t.enabled = none ∨ t.enabled = some (lit "true") ∨ t.enabled = some (lit "false"))) ∧
    parse_triggers (lit "vcs \x7b enabled = false \x7d vcs \x7b \x7d") =
      [Trigger.mk (lit "vcs") (some (lit "false")), Trigger.mk (lit "vcs") none] := by
  refine ⟨?_, by rfl⟩
  intro content t ht
  unfold parse_triggers at ht
  obtain ⟨cc, _, rfl⟩ := List.mem_map.mp ht
  refine ⟨rfl, ?_⟩
  cases hb : searchBool (lit "enabled") cc with
  | none => left; simp [hb]
  | some b =>
    right
    cases b with
    | true => left; simp [hb]
    | false => right; simp [hb]

/-- Witness for C8 on the concrete two-trigger block. -/
theorem claim8_witness :
    Trigger.mk (lit "vcs") (some (lit "false")) ∈
      parse_triggers (lit "vcs \x7b enabled = false \x7d vcs \x7b \x7d") ∧
    (Trigger.mk (lit "vcs") (some (lit "false"))).type = lit "vcs" ∧
    ((Trigger.mk (lit "vcs") (some (lit "false"))).enabled = none ∨
     (Trigger.mk (lit "vcs") (some (lit "false"))).enabled = some (lit "true") ∨
     (Trigger.mk (lit "vcs") (some (lit "false"))).enabled = some (lit "false")) := by
  have hm : Trigger.mk (lit "vcs") (some (lit "false")) ∈
      parse_triggers (lit "vcs \x7b enabled = false \x7d vcs \x7b \x7d") := by
    rw [show parse_triggers (lit "vcs \x7b enabled = false \x7d vcs \x7b \x7d") =
      [Trigger.mk (lit "vcs") (some (lit "false")), Trigger.mk (lit "vcs") none] from rfl]
    exact List.mem_cons_self _ _
  exact ⟨hm, claim8_trigger_enabled.1 _ _ hm⟩

theorem takeWhile_ne_nil_of_head (l : List Char) (hl : 0 < l.length)
    (hh : ¬l[0] = '"') :
    l.takeWhile (fun c => !decide (c = '"')) ≠ [] := by
  cases l with
  | nil => simp at hl
  | cons c rest =>
    simp only [List.getElem_cons_zero] at hh
    simp [List.takeWhile_cons, hh]

/-- C9: the quoted-string pattern requires a nonempty captured value, so a
field written with an empty value (`name = ""`) is skipped exactly as if
absent: the matcher never returns an empty capture, and the concrete
build-type body `name = ""` decodes identically to the empty body, with
the name field omitted. -/
theorem claim9_empty_quoted :
    (∀ (kw s : LStr) (len : Nat) (cap : LStr),
        matchKwEqQuoted kw s = some (len, cap) → cap ≠ []) ∧
    parse_build_type (lit "name = \"\"") = parse_build_type [] ∧
    (parse_build_type (lit "name = \"\"")).name = none := by
  refine ⟨?_, by rfl, by rfl⟩
  intro kw s len cap h
  unfold matchKwEqQuoted at h
  repeat' split at h
  all_goals try simp_all
  obtain ⟨⟨hlen0, hhead⟩, h2⟩ := h
  split at h2
  · injection h2 with h3
    injection h3 with h4 h5
    subst h5
    exact takeWhile_ne_nil_of_head _ hlen0 hhead
  · exact absurd h2 (by simp)

/-- Witness for C9 at a concrete successful match. -/
theorem claim9_witness :
    matchKwEqQuoted (lit "name") (lit "name = \"Run\"") = some (12, lit "Run") ∧
    lit "Run" ≠ [] :=
  ⟨by rfl, claim9_empty_quoted.1 (lit "name") (lit "name = \"Run\"") 12 (lit "Run") (by rfl)⟩

/-! ## Locality lemmas for the matchers

Each matcher can only succeed when certain characters occur in its input;
these lemmas let the scans be discharged wholesale over text regions that
lack those characters. -/

theorem takeKw_mem (kw : LStr) : ∀ (s r : LStr), takeKw kw s = some r → ∀ c ∈ r, c ∈ s := by
  induction kw with
  | nil =>
    intro s r h c hc
    obtain rfl : s = r := by simpa [takeKw] using h
    exact hc
  | cons k ks ih =>
    intro s r h c hc
    cases s with
    | nil => simp [takeKw] at h
    | cons a as =>
      rw [takeKw] at h
      by_cases hak : a = k
      · rw [if_pos hak] at h
        exact List.mem_cons_of_mem a (ih as r h c hc)
      · rw [if_neg hak] at h
        cases h

theorem mem_of_dropWhile (p : Char → Bool) (l : List Char) (c : Char)
    (hc : c ∈ l.dropWhile p) : c ∈ l :=
  (List.dropWhile_sublist p (l := l)).subset hc

theorem head_dropWhile_mem (p : Char → Bool) (l : List Char) (c : Char) (t : List Char)
    (h : l.dropWhile p = c :: t) : c ∈ l := by
  refine mem_of_dropWhile p l c ?_
  rw [h]
  exact List.mem_cons_self c t

theorem matchKwOpen_needs_brace (kw s : LStr) (h : '\x7b' ∉ s) :
    matchKwOpen kw s = none := by
  unfold matchKwOpen
  split
  · rfl
  · rename_i r1 htk
    split
    · rename_i r3 hdw
      exact absurd
        (takeKw_mem kw s r1 htk '\x7b' (head_dropWhile_mem isPySpace r1 '\x7b' r3 hdw)) h
    · rfl

theorem matchKwEqQuoted_needs_eq (kw s : LStr) (h : '=' ∉ s) :
    matchKwEqQuoted kw s = none := by
  unfold matchKwEqQuoted
  split
  · rfl
  · rename_i r1 htk
    split
    · rename_i r2 hdw
      exact absurd
        (takeKw_mem kw s r1 htk '=' (head_dropWhile_mem isPySpace r1 '=' r2 hdw)) h
    · rfl

theorem matchKwEqBool_needs_eq (kw s : LStr) (h : '=' ∉ s) :
    matchKwEqBool kw s = none := by
  unfold matchKwEqBool
  split
  · rfl
  · rename_i r1 htk
    split
    · rename_i r2 hdw
      exact absurd
        (takeKw_mem kw s r1 htk '=' (head_dropWhile_mem isPySpace r1 '=' r2 hdw)) h
    · rfl

theorem matchKwEqTripleNG_needs_eq (kw s : LStr) (h : '=' ∉ s) :
    matchKwEqTripleNG kw s = none := by
  unfold matchKwEqTripleNG
  split
  · rfl
  · rename_i r1 htk
    split
    · rename_i r2 hdw
      exact absurd
        (takeKw_mem kw s r1 htk '=' (head_dropWhile_mem isPySpace r1 '=' r2 hdw)) h
    · rfl

theorem matchKwBlockCC_needs_brace (plus : Bool) (kw s : LStr) (h : '\x7b' ∉ s) :
    matchKwBlockCC plus kw s = none := by
  unfold matchKwBlockCC
  split
  · rfl
  · rename_i r1 htk
    split
    · rename_i r2 hdw
      exact absurd
        (takeKw_mem kw s r1 htk '\x7b' (head_dropWhile_mem isPySpace r1 '\x7b' r2 hdw)) h
    · rfl

/-! ## Stepping lemmas for the scans -/

theorem searchCapAux_congr (m : LStr → Option α) :
    ∀ (f1 : Nat), ∀ (f2 : Nat) (s : LStr), s.length < f1 → s.length < f2 →
      searchCapAux m f1 s = searchCapAux m f2 s := by
  intro f1
  induction f1 with
  | zero => intro f2 s h1 _; omega
  | succ f1 ih =>
    intro f2 s h1 h2
    cases f2 with
    | zero => omega
    | succ f2 =>
      simp only [searchCapAux]
      cases hm : m s with
      | some a => rfl
      | none =>
        cases s with
        | nil => rfl
        | cons c rest =>
          exact ih f2 rest (by simpa using h1) (by simpa using h2)

theorem searchCap_cons_none (m : LStr → Option α) (c : Char) (rest : LStr)
    (h : m (c :: rest) = none) :
    searchCap m (c :: rest) = searchCap m rest := by
  unfold searchCap
  simp only [List.length_cons, searchCapAux, h]

theorem searchCap_cons_some (m : LStr → Option α) (c : Char) (rest : LStr) (a : α)
    (h : m (c :: rest) = some a) :
    searchCap m (c :: rest) = some a := by
  unfold searchCap
  simp only [List.length_cons, searchCapAux, h]

theorem searchCap_none_of_suffix (m : LStr → Option α) :
    ∀ s : LStr, (∀ t, t <:+ s → m t = none) → searchCap m s = none := by
  intro s
  induction s with
  | nil =>
    intro h
    unfold searchCap
    simp only [List.length_nil, searchCapAux, h [] (List.suffix_refl [])]
  | cons c rest ih =>
    intro h
    rw [searchCap_cons_none m c rest (h _ (List.suffix_refl _))]
    exact ih (fun t ht => h t (ht.trans (List.suffix_cons c rest)))

theorem searchCap_append_fail (m : LStr → Option α) (w : LStr) (t : LStr)
    (hfail : ∀ i, i < w.length → m (w.drop i ++ t) = none) :
    searchCap m (w ++ t) = searchCap m t := by
  induction w with
  | nil => simp
  | cons c w2 ih =>
    rw [List.cons_append, searchCap_cons_none m c (w2 ++ t) (hfail 0 (by simp))]
    exact ih (fun i hi => hfail (i + 1) (by simpa using hi))

def findEndsFrom (m : LStr → Option Nat) (s : LStr) (pos : Nat) : List Nat :=
  findAllEndsAux m (s.length + 1) s pos

theorem findAllEnds_eq_from (m : LStr → Option Nat) (s : LStr) :
    findAllEnds m s = findEndsFrom m s 0 := rfl

theorem findAllEndsAux_congr (m : LStr → Option Nat) (hm0 : m [] = none) :
    ∀ (f1 : Nat), ∀ (f2 : Nat) (s : LStr) (pos : Nat), s.length < f1 → s.length < f2 →
      findAllEndsAux m f1 s pos = findAllEndsAux m f2 s pos := by
  intro f1
  induction f1 with
  | zero => intro f2 s pos h1 _; omega
  | succ f1 ih =>
    intro f2 s pos h1 h2
    cases f2 with
    | zero => omega
    | succ f2 =>
      simp only [findAllEndsAux]
      cases hm : m s with
      | some len =>
        cases s with
        | nil => rw [hm0] at hm; cases hm
        | cons c rest =>
          dsimp only
          have hlen : ((c :: rest).drop (max len 1)).length < f1 ∧
              ((c :: rest).drop (max len 1)).length < f2 := by
            rw [List.length_drop]
            simp only [List.length_cons] at h1 h2 ⊢
            omega
          rw [ih f2 _ _ hlen.1 hlen.2]
      | none =>
        cases s with
        | nil => rfl
        | cons c rest =>
          dsimp only
          exact ih f2 rest (pos + 1) (by simpa using h1) (by simpa using h2)

theorem findEndsFrom_cons_none (m : LStr → Option Nat) (c : Char) (rest : LStr) (pos : Nat)
    (h : m (c :: rest) = none) :
    findEndsFrom m (c :: rest) pos = findEndsFrom m rest (pos + 1) := by
  unfold findEndsFrom
  simp only [List.length_cons, findAllEndsAux, h]

theorem findAllEndsAux_succ (m : LStr → Option Nat) (fuel : Nat) (s : LStr) (pos : Nat) :
    findAllEndsAux m (fuel + 1) s pos =
      match m s with
      | some len =>
        (pos + len) :: findAllEndsAux m fuel (s.drop (max len 1)) (pos + max len 1)
      | none =>
        match s with
        | [] => []
        | _ :: rest => findAllEndsAux m fuel rest (pos + 1) := rfl

theorem findEndsFrom_cons_some (m : LStr → Option Nat) (hm0 : m [] = none)
    (c : Char) (rest : LStr) (pos len : Nat) (h : m (c :: rest) = some len) :
    findEndsFrom m (c :: rest) pos =
      (pos + len) :: findEndsFrom m ((c :: rest).drop (max len 1)) (pos + max len 1) := by
  unfold findEndsFrom
  simp only [List.length_cons]
  rw [findAllEndsAux_succ, h]
  dsimp only
  congr 1
  apply findAllEndsAux_congr m hm0 <;>
    (rw [List.length_drop]; simp only [List.length_cons]; omega)

theorem findEndsFrom_none_of_suffix (m : LStr → Option Nat) :
    ∀ s : LStr, (∀ t, t <:+ s → m t = none) → ∀ pos, findEndsFrom m s pos = [] := by
  intro s
  induction s with
  | nil =>
    intro h pos
    unfold findEndsFrom
    simp only [List.length_nil, findAllEndsAux, h [] (List.suffix_refl [])]
  | cons c rest ih =>
    intro h pos
    rw [findEndsFrom_cons_none m c rest pos (h _ (List.suffix_refl _))]
    exact ih (fun t ht => h t (ht.trans (List.suffix_cons c rest))) (pos + 1)

theorem findEndsFrom_append_fail (m : LStr → Option Nat) (w : LStr) (t : LStr)
    (hfail : ∀ i, i < w.length → m (w.drop i ++ t) = none) :
    ∀ pos, findEndsFrom m (w ++ t) pos = findEndsFrom m t (pos + w.length) := by
  induction w with
  | nil => intro pos; simp
  | cons c w2 ih =>
    intro pos
    rw [List.cons_append, findEndsFrom_cons_none m c (w2 ++ t) pos (hfail 0 (by simp))]
    rw [ih (fun i hi => hfail (i + 1) (by simpa using hi)) (pos + 1)]
    simp only [List.length_cons]
    congr 1
    omega

/-! ## Scanning over brace-free and character-free regions -/

theorem extractAux_skip_free (w : LStr) (hw : ∀ c ∈ w, ¬c = '\x7b' ∧ ¬c = '\x7d') :
    ∀ (t : LStr) (level : Int),
      extractBalancedAux (w ++ t) level = (extractBalancedAux t level).map (· + w.length) := by
  induction w with
  | nil =>
    intro t level
    simp only [List.nil_append, List.length_nil]
    cases extractBalancedAux t level <;> simp
  | cons c w2 ih =>
    intro t level
    have hc := hw c (List.mem_cons_self c w2)
    rw [List.cons_append, extractAux_other c _ level hc.1 hc.2,
      ih (fun d hd => hw d (List.mem_cons_of_mem c hd)) t level]
    cases extractBalancedAux t level <;> simp [Nat.add_assoc]

theorem takeWhile_append_all (p : Char → Bool) (w t : LStr) (hw : ∀ c ∈ w, p c) :
    (w ++ t).takeWhile p = w ++ t.takeWhile p := by
  induction w with
  | nil => simp
  | cons c w2 ih =>
    rw [List.cons_append, List.takeWhile_cons, if_pos (hw c (List.mem_cons_self c w2)),
      ih (fun d hd => hw d (List.mem_cons_of_mem c hd))]
    rfl

theorem drop_append_len (w t : LStr) : (w ++ t).drop w.length = t := List.drop_left w t

/-! ## Balanced extraction over shaped nested-block inputs -/

theorem extractCore_simple (w rest : LStr)
    (hw : ∀ c ∈ w, ¬c = '\x7b' ∧ ¬c = '\x7d') :
    extractCore ('\x7b' :: (w ++ '\x7d' :: rest)) = '\x7b' :: (w ++ ['\x7d']) := by
  unfold extractCore
  rw [extractAux_brace, extractAux_skip_free w hw]
  rw [show (0 : Int) + 1 = 1 from by norm_num]
  rw [extractAux_close_zero rest 1 (by norm_num)]
  simp only [Option.map_some']
  rw [show 0 + w.length + 1 + 1 = w.length + 1 + 1 from by omega]
  rw [List.take_succ_cons]
  congr 1
  rw [List.take_append 1]
  congr 1

theorem extractCore_two_level (a b c rest : LStr)
    (ha : ∀ x ∈ a, ¬x = '\x7b' ∧ ¬x = '\x7d')
    (hb : ∀ x ∈ b, ¬x = '\x7b' ∧ ¬x = '\x7d')
    (hc : ∀ x ∈ c, ¬x = '\x7b' ∧ ¬x = '\x7d') :
    extractCore ('\x7b' :: (a ++ '\x7b' :: (b ++ '\x7d' :: (c ++ '\x7d' :: rest)))) =
      '\x7b' :: (a ++ '\x7b' :: (b ++ '\x7d' :: (c ++ ['\x7d']))) := by
  unfold extractCore
  rw [extractAux_brace, extractAux_skip_free a ha, extractAux_brace,
    extractAux_skip_free b hb]
  rw [show (0 : Int) + 1 + 1 = 2 from by norm_num]
  rw [extractAux_close_nz _ 2 (by norm_num), extractAux_skip_free c hc]
  rw [show (2 : Int) - 1 = 1 from by norm_num]
  rw [extractAux_close_zero rest 1 (by norm_num)]
  simp only [Option.map_some']
  rw [show 0 + c.length + 1 + b.length + 1 + a.length + 1 + 1 =
      (a.length + ((b.length + ((c.length + 1) + 1)) + 1)) + 1 from by omega]
  rw [List.take_succ_cons]
  congr 1
  rw [List.take_append]
  congr 1
  rw [List.take_succ_cons]
  congr 1
  rw [List.take_append]
  congr 1
  rw [List.take_succ_cons]
  congr 1
  rw [List.take_append 1]
  congr 1

theorem innerOf_simple (w : LStr) :
    innerOf ('\x7b' :: (w ++ ['\x7d'])) = w := by
  unfold innerOf
  simp only [List.drop_succ_cons, List.drop_zero]
  exact List.dropLast_concat

theorem innerOf_two_level (a b c : LStr) :
    innerOf ('\x7b' :: (a ++ '\x7b' :: (b ++ '\x7d' :: (c ++ ['\x7d'])))) =
      a ++ '\x7b' :: (b ++ '\x7d' :: c) := by
  unfold innerOf
  simp only [List.drop_succ_cons, List.drop_zero]
  rw [show a ++ '\x7b' :: (b ++ '\x7d' :: (c ++ ['\x7d'])) =
      (a ++ '\x7b' :: (b ++ '\x7d' :: c)) ++ ['\x7d'] from by simp [List.append_assoc]]
  exact List.dropLast_concat

/-! ## Matcher successes on shaped inputs -/

theorem matchKwOpen_script_at (X : LStr) :
    matchKwOpen (lit "script") (lit "script \x7b" ++ X) = some 8 := by
  rw [show matchKwOpen (lit "script") (lit "script \x7b" ++ X) =
      some ((lit "script \x7b" ++ X).length - X.length) from rfl]
  congr 1
  rw [List.length_append, show (lit "script \x7b").length = 8 from rfl]
  omega

theorem matchKwOpen_python_at (X : LStr) :
    matchKwOpen (lit "python") (lit "python \x7b" ++ X) = some 8 := by
  rw [show matchKwOpen (lit "python") (lit "python \x7b" ++ X) =
      some ((lit "python \x7b" ++ X).length - X.length) from rfl]
  congr 1
  rw [List.length_append, show (lit "python \x7b").length = 8 from rfl]
  omega

theorem matchCmdScript_shaped (mid tail2 : LStr) (hne : mid ≠ [])
    (hmid : ∀ c ∈ mid, ¬c = '\x7d') :
    matchCmdScript (lit "command = script \x7b" ++ (mid ++ '\x7d' :: tail2)) =
      some ((lit "command = script \x7b" ++ (mid ++ '\x7d' :: tail2)).length - tail2.length,
        mid) := by
  rw [show matchCmdScript (lit "command = script \x7b" ++ (mid ++ '\x7d' :: tail2)) =
      (if (mid ++ '\x7d' :: tail2).takeWhile (fun c => c ≠ '\x7d') = [] then none
       else
         match (mid ++ '\x7d' :: tail2).drop
             ((mid ++ '\x7d' :: tail2).takeWhile (fun c => c ≠ '\x7d')).length with
         | '\x7d' :: r5 =>
           some ((lit "command = script \x7b" ++ (mid ++ '\x7d' :: tail2)).length - r5.length,
             (mid ++ '\x7d' :: tail2).takeWhile (fun c => c ≠ '\x7d'))
         | _ => none) from rfl]
  rw [takeWhile_append_all _ mid _ (by intro c hc; simpa using hmid c hc)]
  rw [show ('\x7d' :: tail2).takeWhile (fun c => c ≠ '\x7d') = [] from rfl]
  rw [List.append_nil, if_neg hne, drop_append_len]
  rfl

theorem matchTripleCC_content_shaped (v tail3 : LStr)
    (hv : ∀ c ∈ v, ¬c = '"') :
    matchKwEqTripleCC false (lit "content")
        (lit "content = \"\"\"" ++ (v ++ '"' :: '"' :: '"' :: tail3)) =
      some ((lit "content = \"\"\"" ++ (v ++ '"' :: '"' :: '"' :: tail3)).length - tail3.length,
        v) := by
  rw [show matchKwEqTripleCC false (lit "content")
        (lit "content = \"\"\"" ++ (v ++ '"' :: '"' :: '"' :: tail3)) =
      (match (v ++ '"' :: '"' :: '"' :: tail3).drop
          ((v ++ '"' :: '"' :: '"' :: tail3).takeWhile (fun c => c ≠ '"')).length with
       | '"' :: '"' :: '"' :: r4 =>
         some ((lit "content = \"\"\"" ++ (v ++ '"' :: '"' :: '"' :: tail3)).length - r4.length,
           (v ++ '"' :: '"' :: '"' :: tail3).takeWhile (fun c => c ≠ '"'))
       | _ => none) from rfl]
  rw [takeWhile_append_all _ v _ (by intro c hc; simpa using hv c hc)]
  rw [show ('"' :: '"' :: '"' :: tail3).takeWhile (fun c => c ≠ '"') = [] from rfl]
  rw [List.append_nil, drop_append_len]
  rfl

/-! ## The nested-script steps-block family (claim C10) -/

/-- The steps-block body: one python step whose command wraps its content
in a nested `script { ... }` block, with symbolic triple-quoted content. -/
def c10tmpl (v : LStr) : LStr :=
  lit "python \x7b command = script \x7b content = \"\"\"" ++ v ++ lit "\"\"\" \x7d \x7d"

/-- The content carries no brace, quote or equals character. -/
def c10free (v : LStr) : Prop :=
  ∀ c ∈ v, ¬c = '\x7b' ∧ ¬c = '\x7d' ∧ ¬c = '"' ∧ ¬c = '='

theorem c10_scan_script (v : LStr) (hv : c10free v) :
    findAllEnds (matchKwOpen (lit "script")) (c10tmpl v) = [27] := by
  rw [findAllEnds_eq_from]
  rw [show c10tmpl v = lit "python \x7b command = " ++
      (lit "script \x7b" ++ (lit " content = \"\"\"" ++ (v ++ lit "\"\"\" \x7d \x7d"))) from rfl]
  rw [findEndsFrom_append_fail _ _ _ (by
    intro i hi
    rw [show (lit "python \x7b command = ").length = 19 from rfl] at hi
    interval_cases i <;> rfl)]
  rw [show lit "script \x7b" ++ (lit " content = \"\"\"" ++ (v ++ lit "\"\"\" \x7d \x7d")) =
      's' :: (lit "cript \x7b" ++ (lit " content = \"\"\"" ++ (v ++ lit "\"\"\" \x7d \x7d"))) from rfl]
  rw [findEndsFrom_cons_some _ (by rfl) _ _ _ 8
    (show matchKwOpen (lit "script") ('s' :: (lit "cript \x7b" ++
        (lit " content = \"\"\"" ++ (v ++ lit "\"\"\" \x7d \x7d")))) = some 8 from
      matchKwOpen_script_at (lit " content = \"\"\"" ++ (v ++ lit "\"\"\" \x7d \x7d")))]
  rw [show ('s' :: (lit "cript \x7b" ++
      (lit " content = \"\"\"" ++ (v ++ lit "\"\"\" \x7d \x7d")))).drop (max 8 1) =
      lit " content = \"\"\"" ++ (v ++ lit "\"\"\" \x7d \x7d") from rfl]
  rw [findEndsFrom_append_fail _ _ _ (by
    intro i hi
    rw [show (lit " content = \"\"\"").length = 14 from rfl] at hi
    interval_cases i <;> rfl)]
  rw [findEndsFrom_none_of_suffix _ _ ?tail]
  case tail =>
    intro t ht
    apply matchKwOpen_needs_brace
    intro hmem
    rcases List.mem_append.mp (ht.subset hmem) with h1 | h2
    · exact (hv _ h1).1 rfl
    · exact absurd h2 (by decide)
  rfl

theorem c10_scan_python (v : LStr) (hv : c10free v) :
    findAllEnds (matchKwOpen (lit "python")) (c10tmpl v) = [8] := by
  rw [findAllEnds_eq_from]
  rw [show c10tmpl v = 'p' :: (lit "ython \x7b" ++
      (lit " command = script \x7b content = \"\"\"" ++ (v ++ lit "\"\"\" \x7d \x7d"))) from rfl]
  rw [findEndsFrom_cons_some _ (by rfl) _ _ _ 8
    (show matchKwOpen (lit "python") ('p' :: (lit "ython \x7b" ++
        (lit " command = script \x7b content = \"\"\"" ++
          (v ++ lit "\"\"\" \x7d \x7d")))) = some 8 from
      matchKwOpen_python_at (lit " command = script \x7b content = \"\"\"" ++
        (v ++ lit "\"\"\" \x7d \x7d")))]
  rw [show ('p' :: (lit "ython \x7b" ++
      (lit " command = script \x7b content = \"\"\"" ++
        (v ++ lit "\"\"\" \x7d \x7d")))).drop (max 8 1) =
      lit " command = script \x7b content = \"\"\"" ++ (v ++ lit "\"\"\" \x7d \x7d") from rfl]
  rw [findEndsFrom_append_fail _ _ _ (by
    intro i hi
    rw [show (lit " command = script \x7b content = \"\"\"").length = 33 from rfl] at hi
    interval_cases i <;> rfl)]
  rw [findEndsFrom_none_of_suffix _ _ ?tail]
  case tail =>
    intro t ht
    apply matchKwOpen_needs_brace
    intro hmem
    rcases List.mem_append.mp (ht.subset hmem) with h1 | h2
    · exact (hv _ h1).1 rfl
    · exact absurd h2 (by decide)

theorem c10_scan_other (kw : LStr) (v : LStr) (hv : c10free v)
    (hfail : ∀ i, i < 41 → matchKwOpen kw
      ((lit "python \x7b command = script \x7b content = \"\"\"").drop i ++
        (v ++ lit "\"\"\" \x7d \x7d")) = none) :
    findAllEnds (matchKwOpen kw) (c10tmpl v) = [] := by
  rw [findAllEnds_eq_from]
  rw [show c10tmpl v = lit "python \x7b command = script \x7b content = \"\"\"" ++
      (v ++ lit "\"\"\" \x7d \x7d") from rfl]
  rw [findEndsFrom_append_fail _ _ _ (by
    intro i hi
    refine hfail i ?_
    rw [show (lit "python \x7b command = script \x7b content = \"\"\"").length = 41
      from rfl] at hi
    exact hi)]
  exact findEndsFrom_none_of_suffix _ _ (by
    intro t ht
    apply matchKwOpen_needs_brace
    intro hmem
    rcases List.mem_append.mp (ht.subset hmem) with h1 | h2
    · exact (hv _ h1).1 rfl
    · exact absurd h2 (by decide)) _

theorem c10_inner_free (v : LStr) (hv : c10free v) :
    ∀ c ∈ lit " content = \"\"\"" ++ (v ++ lit "\"\"\" "), ¬c = '\x7b' ∧ ¬c = '\x7d' := by
  have hcfix : ∀ c ∈ lit " content = \"\"\"", ¬c = '\x7b' ∧ ¬c = '\x7d' := by decide
  have hqfix : ∀ c ∈ lit "\"\"\" ", ¬c = '\x7b' ∧ ¬c = '\x7d' := by decide
  intro c hc
  rcases List.mem_append.mp hc with h1 | h2
  · exact hcfix c h1
  · rcases List.mem_append.mp h2 with h3 | h4
    · exact ⟨(hv _ h3).1, (hv _ h3).2.1⟩
    · exact hqfix c h4

theorem c10_script_block (v : LStr) (hv : c10free v) :
    extract_balanced (c10tmpl v) 26 =
      '\x7b' :: ((lit " content = \"\"\"" ++ (v ++ lit "\"\"\" ")) ++ ['\x7d']) := by
  rw [extract_balanced_eq_core]
  have hshape : (c10tmpl v).drop 26 =
      '\x7b' :: ((lit " content = \"\"\"" ++ (v ++ lit "\"\"\" ")) ++ '\x7d' :: lit " \x7d") := by
    rw [show (c10tmpl v).drop 26 =
        '\x7b' :: (lit " content = \"\"\"" ++ (v ++ lit "\"\"\" \x7d \x7d")) from rfl]
    congr 1
    simp only [List.append_assoc]
    rfl
  rw [hshape]
  exact extractCore_simple _ _ (c10_inner_free v hv)

theorem c10_python_block (v : LStr) (hv : c10free v) :
    extract_balanced (c10tmpl v) 7 =
      '\x7b' :: (lit " command = script " ++ '\x7b' ::
        ((lit " content = \"\"\"" ++ (v ++ lit "\"\"\" ")) ++ '\x7d' :: ([' '] ++ ['\x7d']))) := by
  rw [extract_balanced_eq_core]
  have hshape : (c10tmpl v).drop 7 =
      '\x7b' :: (lit " command = script " ++ '\x7b' ::
        ((lit " content = \"\"\"" ++ (v ++ lit "\"\"\" ")) ++ '\x7d' :: ([' '] ++ '\x7d' :: []))) := by
    rw [show (c10tmpl v).drop 7 =
        '\x7b' :: (lit " command = script " ++ '\x7b' ::
          (lit " content = \"\"\"" ++ (v ++ lit "\"\"\" \x7d \x7d"))) from rfl]
    congr 3
    simp only [List.append_assoc]
    rfl
  rw [hshape]
  exact extractCore_two_level _ _ _ _ (by decide) (c10_inner_free v hv) (by decide)

theorem c10_script_record (v : LStr) (hv : c10free v) :
    parse_script_step (lit " content = \"\"\"" ++ (v ++ lit "\"\"\" ")) =
      Step.mk (some (lit "script")) none none none none none none none none none := by
  have htail : ∀ t, t <:+ v ++ lit "\"\"\" " → '=' ∉ t := by
    intro t ht hmem
    rcases List.mem_append.mp (ht.subset hmem) with h1 | h2
    · exact (hv _ h1).2.2.2 rfl
    · exact absurd h2 (by decide)
  have hbound : ∀ i : Nat, i < (lit " content = \"\"\"").length → i < 14 := by
    intro i hi
    rw [show (lit " content = \"\"\"").length = 14 from rfl] at hi
    exact hi
  have hname : searchCap (matchKwEqQuoted (lit "name"))
      (lit " content = \"\"\"" ++ (v ++ lit "\"\"\" ")) = none := by
    rw [searchCap_append_fail _ _ _ (by
      intro i hi; have := hbound i hi; interval_cases i <;> rfl)]
    exact searchCap_none_of_suffix _ _
      (fun t ht => matchKwEqQuoted_needs_eq _ _ (htail t ht))
  have hid : searchCap (matchKwEqQuoted (lit "id"))
      (lit " content = \"\"\"" ++ (v ++ lit "\"\"\" ")) = none := by
    rw [searchCap_append_fail _ _ _ (by
      intro i hi; have := hbound i hi; interval_cases i <;> rfl)]
    exact searchCap_none_of_suffix _ _
      (fun t ht => matchKwEqQuoted_needs_eq _ _ (htail t ht))
  have hwd : searchCap (matchKwEqQuoted (lit "workingDir"))
      (lit " content = \"\"\"" ++ (v ++ lit "\"\"\" ")) = none := by
    rw [searchCap_append_fail _ _ _ (by
      intro i hi; have := hbound i hi; interval_cases i <;> rfl)]
    exact searchCap_none_of_suffix _ _
      (fun t ht => matchKwEqQuoted_needs_eq _ _ (htail t ht))
  have hen : searchCap (matchKwEqBool (lit "enabled"))
      (lit " content = \"\"\"" ++ (v ++ lit "\"\"\" ")) = none := by
    rw [searchCap_append_fail _ _ _ (by
      intro i hi; have := hbound i hi; interval_cases i <;> rfl)]
    exact searchCap_none_of_suffix _ _
      (fun t ht => matchKwEqBool_needs_eq _ _ (htail t ht))
  have hsc : searchCap (matchKwEqTripleNG (lit "scriptContent"))
      (lit " content = \"\"\"" ++ (v ++ lit "\"\"\" ")) = none := by
    rw [searchCap_append_fail _ _ _ (by
      intro i hi; have := hbound i hi; interval_cases i <;> rfl)]
    exact searchCap_none_of_suffix _ _
      (fun t ht => matchKwEqTripleNG_needs_eq _ _ (htail t ht))
  have hbrace : ∀ t, t <:+ (lit " content = \"\"\"" ++ (v ++ lit "\"\"\" ")) → '\x7b' ∉ t := by
    intro t ht hmem
    have := (c10_inner_free v hv) _ (ht.subset hmem)
    exact this.1 rfl
  have hcond : searchCap (matchKwBlockCC false (lit "conditions"))
      (lit " content = \"\"\"" ++ (v ++ lit "\"\"\" ")) = none :=
    searchCap_none_of_suffix _ _
      (fun t ht => matchKwBlockCC_needs_brace _ _ _ (hbrace t ht))
  unfold parse_script_step searchQ searchBool searchTripleNG searchBlock
  rw [hname, hid, hwd, hen, hsc, hcond]
  rfl

theorem c10_python_record (v : LStr) (hv : c10free v) :
    parse_python_step (lit " command = script " ++ '\x7b' ::
        ((lit " content = \"\"\"" ++ (v ++ lit "\"\"\" ")) ++ '\x7d' :: [' '])) =
      Step.mk (some (lit "python")) none none none none (some (pyStrip v))
        none none none none := by
  have hgroup : (lit " command = script " ++ '\x7b' ::
      ((lit " content = \"\"\"" ++ (v ++ lit "\"\"\" ")) ++ '\x7d' :: [' '])) =
      lit " command = script \x7b content = \"\"\"" ++ (v ++ lit "\"\"\" \x7d ") := by
    simp only [List.append_assoc]
    rfl
  have htail : ∀ t, t <:+ v ++ lit "\"\"\" \x7d " → '=' ∉ t := by
    intro t ht hmem
    rcases List.mem_append.mp (ht.subset hmem) with h1 | h2
    · exact (hv _ h1).2.2.2 rfl
    · exact absurd h2 (by decide)
  have hbound : ∀ i : Nat, i < (lit " command = script \x7b content = \"\"\"").length →
      i < 33 := by
    intro i hi
    rw [show (lit " command = script \x7b content = \"\"\"").length = 33 from rfl] at hi
    exact hi
  have hname : searchCap (matchKwEqQuoted (lit "name"))
      (lit " command = script " ++ '\x7b' ::
        ((lit " content = \"\"\"" ++ (v ++ lit "\"\"\" ")) ++ '\x7d' :: [' '])) = none := by
    rw [hgroup]
    rw [searchCap_append_fail _ _ _ (by
      intro i hi; have := hbound i hi; interval_cases i <;> rfl)]
    exact searchCap_none_of_suffix _ _
      (fun t ht => matchKwEqQuoted_needs_eq _ _ (htail t ht))
  have hid : searchCap (matchKwEqQuoted (lit "id"))
      (lit " command = script " ++ '\x7b' ::
        ((lit " content = \"\"\"" ++ (v ++ lit "\"\"\" ")) ++ '\x7d' :: [' '])) = none := by
    rw [hgroup]
    rw [searchCap_append_fail _ _ _ (by
      intro i hi; have := hbound i hi; interval_cases i <;> rfl)]
    exact searchCap_none_of_suffix _ _
      (fun t ht => matchKwEqQuoted_needs_eq _ _ (htail t ht))
  have hne : lit " content = \"\"\"" ++ (v ++ lit "\"\"\" ") ≠ [] := by
    intro h
    have hlen := congrArg List.length h
    rw [List.length_append, show (lit " content = \"\"\"").length = 14 from rfl] at hlen
    simp at hlen
  have hmid : ∀ c ∈ lit " content = \"\"\"" ++ (v ++ lit "\"\"\" "), ¬c = '\x7d' :=
    fun c hc => ((c10_inner_free v hv) c hc).2
  have hcmd1 : matchCmdScript ('c' :: (lit "ommand = script \x7b" ++
      ((lit " content = \"\"\"" ++ (v ++ lit "\"\"\" ")) ++ '\x7d' :: [' ']))) =
      some ((lit "command = script \x7b" ++
        ((lit " content = \"\"\"" ++ (v ++ lit "\"\"\" ")) ++ '\x7d' :: [' '])).length -
          ([' '] : LStr).length,
        lit " content = \"\"\"" ++ (v ++ lit "\"\"\" ")) :=
    matchCmdScript_shaped (lit " content = \"\"\"" ++ (v ++ lit "\"\"\" ")) [' '] hne hmid
  have hcmd : searchCap matchCmdScript
      (lit " command = script " ++ '\x7b' ::
        ((lit " content = \"\"\"" ++ (v ++ lit "\"\"\" ")) ++ '\x7d' :: [' '])) =
      some ((lit "command = script \x7b" ++
        ((lit " content = \"\"\"" ++ (v ++ lit "\"\"\" ")) ++ '\x7d' :: [' '])).length -
          ([' '] : LStr).length,
        lit " content = \"\"\"" ++ (v ++ lit "\"\"\" ")) := by
    rw [show (lit " command = script " ++ '\x7b' ::
        ((lit " content = \"\"\"" ++ (v ++ lit "\"\"\" ")) ++ '\x7d' :: [' '])) =
      ' ' :: ('c' :: (lit "ommand = script \x7b" ++
        ((lit " content = \"\"\"" ++ (v ++ lit "\"\"\" ")) ++ '\x7d' :: [' ']))) from rfl]
    rw [searchCap_cons_none _ _ _ (by rfl)]
    rw [searchCap_cons_some _ _ _ _ hcmd1]
  have hinner1 : matchKwEqTripleCC false (lit "content")
      ('c' :: (lit "ontent = \"\"\"" ++ (v ++ '"' :: '"' :: '"' :: [' ']))) =
      some ((lit "content = \"\"\"" ++ (v ++ '"' :: '"' :: '"' :: [' '])).length -
          ([' '] : LStr).length, v) :=
    matchTripleCC_content_shaped v [' ']
      (fun c hc => (hv c hc).2.2.1)
  have hinner : searchCap (matchKwEqTripleCC false (lit "content"))
      (lit " content = \"\"\"" ++ (v ++ lit "\"\"\" ")) =
      some ((lit "content = \"\"\"" ++ (v ++ '"' :: '"' :: '"' :: [' '])).length -
          ([' '] : LStr).length, v) := by
    rw [show (lit " content = \"\"\"" ++ (v ++ lit "\"\"\" ")) =
      ' ' :: ('c' :: (lit "ontent = \"\"\"" ++ (v ++ '"' :: '"' :: '"' :: [' ']))) from rfl]
    rw [searchCap_cons_none _ _ _ (by rfl)]
    rw [searchCap_cons_some _ _ _ _ hinner1]
  unfold parse_python_step searchQ searchTripleCC
  rw [hname, hid, hcmd]
  dsimp only
  rw [hinner]
  rfl

/-- C10: a steps-block body holding exactly one python step whose command
wraps its content in a nested `script { ... }` block decodes to two
records, not one: a script-kind record from the nested block first, then
the python-kind record carrying the stripped content — for every content
text free of braces, quotes and equals signs. -/
theorem claim10_nested_script (v : LStr) (hv : c10free v) :
    parse_steps (c10tmpl v) =
      [Step.mk (some (lit "script")) none none none none none none none none none,
       Step.mk (some (lit "python")) none none none none (some (pyStrip v))
         none none none none] := by
  have hscript : stepsOfKind (lit "script") parse_script_step (c10tmpl v) =
      [Step.mk (some (lit "script")) none none none none none none none none none] := by
    unfold stepsOfKind
    rw [c10_scan_script v hv]
    simp only [List.filterMap_cons, List.filterMap_nil]
    rw [show (27 : Nat) - 1 = 26 from rfl]
    rw [c10_script_block v hv]
    rw [if_neg (by simp)]
    rw [innerOf_simple, c10_script_record v hv]
  have hpython : stepsOfKind (lit "python") parse_python_step (c10tmpl v) =
      [Step.mk (some (lit "python")) none none none none (some (pyStrip v))
        none none none none] := by
    unfold stepsOfKind
    rw [c10_scan_python v hv]
    simp only [List.filterMap_cons, List.filterMap_nil]
    rw [show (8 : Nat) - 1 = 7 from rfl]
    rw [c10_python_block v hv]
    rw [if_neg (by simp)]
    rw [innerOf_two_level, c10_python_record v hv]
  have hkotlin : stepsOfKind (lit "kotlinScript") parse_kotlin_step (c10tmpl v) = [] := by
    unfold stepsOfKind
    rw [c10_scan_other (lit "kotlinScript") v hv (by intro i hi; interval_cases i <;> rfl)]
    rfl
  have hps : stepsOfKind (lit "powerShell") parse_powershell_step (c10tmpl v) = [] := by
    unfold stepsOfKind
    rw [c10_scan_other (lit "powerShell") v hv (by intro i hi; interval_cases i <;> rfl)]
    rfl
  have hstep : stepsOfKind (lit "step") parse_general_step (c10tmpl v) = [] := by
    unfold stepsOfKind
    rw [c10_scan_other (lit "step") v hv (by intro i hi; interval_cases i <;> rfl)]
    rfl
  unfold parse_steps
  rw [hscript, hpython, hkotlin, hps, hstep]
  rfl

/-- Witness for C10 at the concrete content "echo hi". -/
theorem claim10_witness :
    c10free (lit "echo hi") ∧
    parse_steps (c10tmpl (lit "echo hi")) =
      [Step.mk (some (lit "script")) none none none none none none none none none,
       Step.mk (some (lit "python")) none none none none
         (some (pyStrip (lit "echo hi"))) none none none none] :=
  ⟨by unfold c10free; decide, claim10_nested_script (lit "echo hi") (by unfold c10free; decide)⟩
